import Mathlib

/-! # Google Workspace Admin Reports tables: listing routines

A shallow embedding of the four listing routines of the plugin
(`listAdminReportsActivities`, `listAdminReportsCustomerUsage`,
`listAdminReportsEntityUsage`, `listAdminReportsUserUsage`) together with the
parts of their environment they call into:

* the Go standard library `time` package, restricted to what the activities
  routine uses: `time.Parse` and `Time.Format` with the one layout
  `2006-01-02T15:04:05.000Z`, `Time.Add`, `time.Now`; strings are lists of
  characters, and the calendar functions follow the library function by
  function (`Date`, `norm`, `daysSinceEpoch`, `absDate`, `absClock`,
  `appendInt`, `getnum`, `atoi`, `leadingInt`, `parseNanoseconds`);
* the vendor client's call builders (one setter per URL parameter) and its
  `Pages` loop;
* the host's query data (`KeyColumnQuals`, `Quals`, `QueryContext.Limit`), its
  row sink (`StreamListItem`) and its cancellation signal (`IsCancelled`).

A run of a routine is a function of the query data and of an environment
(`Env`) that fixes what the outside world answers; its result (`Outcome`)
records the rows emitted, the page fetches made and the error returned.
-/

set_option autoImplicit false

/-! ## Go `time`, for the layout `2006-01-02T15:04:05.000Z` -/

namespace time

def secondsPerMinute : Int := 60
def secondsPerHour : Int := 60 * secondsPerMinute
def secondsPerDay : Int := 24 * secondsPerHour
def daysPer400Years : Int := 365 * 400 + 97
def daysPer100Years : Int := 365 * 100 + 24
def daysPer4Years : Int := 365 * 4 + 1

/-- The year of the zero of the absolute time scale used by the calendar
computations. -/
def absoluteZeroYear : Int := -292277022399

def absoluteToInternal : Int := -9223371966579724800
def internalToAbsolute : Int := -absoluteToInternal
def unixToInternal : Int := (1969 * 365 + 1969 / 4 - 1969 / 100 + 1969 / 400) * secondsPerDay
def internalToUnix : Int := -unixToInternal

/-- A `Duration` is a count of nanoseconds. -/
abbrev Duration := Int

def Nanosecond : Duration := 1
def Microsecond : Duration := 1000 * Nanosecond
def Millisecond : Duration := 1000 * Microsecond
def Second : Duration := 1000 * Millisecond
def Minute : Duration := 60 * Second
def Hour : Duration := 60 * Minute

/-- A `Location` maps an instant (Unix seconds) to the offset, in seconds east
of UTC, in effect at that instant. -/
structure Location where
  lookup : Int → Int

def UTC : Location := ⟨fun _ => 0⟩

/-- A zone with one fixed offset, as `time.FixedZone` builds. -/
def FixedZone (offset : Int) : Location := ⟨fun _ => offset⟩

/-- An instant with nanosecond precision and the location it is presented in:
`sec` counts seconds since the Unix epoch, `nsec` is in `[0, 999999999]`. The
monotonic clock reading a `Time` may carry is left out: `Format` does not read
it. Integers are unbounded; the instants of the layout (years 0 to 9999) and of
a running clock are far from the ends of the 64-bit range. -/
structure Time where
  sec : Int
  nsec : Int
  loc : Location

/-- The error `time.Parse` returns. -/
structure ParseError where
  Layout : String
  Value : String
  LayoutElem : String
  ValueElem : String
  Message : String
  deriving DecidableEq, Repr

def isLeap (year : Int) : Bool :=
  year % 4 = 0 && (year % 100 ≠ 0 || year % 400 = 0)

/-- The table `daysBefore`: `daysBefore m` is the number of days in a non-leap
year before month `m + 1` starts. -/
def daysBefore (m : Int) : Int :=
  if m = 0 then 0
  else if m = 1 then 31
  else if m = 2 then 31 + 28
  else if m = 3 then 31 + 28 + 31
  else if m = 4 then 31 + 28 + 31 + 30
  else if m = 5 then 31 + 28 + 31 + 30 + 31
  else if m = 6 then 31 + 28 + 31 + 30 + 31 + 30
  else if m = 7 then 31 + 28 + 31 + 30 + 31 + 30 + 31
  else if m = 8 then 31 + 28 + 31 + 30 + 31 + 30 + 31 + 31
  else if m = 9 then 31 + 28 + 31 + 30 + 31 + 30 + 31 + 31 + 30
  else if m = 10 then 31 + 28 + 31 + 30 + 31 + 30 + 31 + 31 + 30 + 31
  else if m = 11 then 31 + 28 + 31 + 30 + 31 + 30 + 31 + 31 + 30 + 31 + 30
  else 31 + 28 + 31 + 30 + 31 + 30 + 31 + 31 + 30 + 31 + 30 + 31

def daysIn (m : Int) (year : Int) : Int :=
  if m = 2 && isLeap year then 29
  else daysBefore m - daysBefore (m - 1)

/-- The number of days from the absolute epoch to the start of `year`. -/
def daysSinceEpoch (year : Int) : Int :=
  let y := year - absoluteZeroYear
  -- Add in days from 400-year cycles.
  let n := y / 400
  let y := y - 400 * n
  let d := daysPer400Years * n
  -- Add in 100-year cycles.
  let n := y / 100
  let y := y - 100 * n
  let d := d + daysPer100Years * n
  -- Add in 4-year cycles.
  let n := y / 4
  let y := y - 4 * n
  let d := d + daysPer4Years * n
  -- Add in non-leap years.
  let n := y
  d + 365 * n

/-- The function `norm hi lo base` carries the excess of `lo` over
`[0, base)` into `hi`. -/
def norm (hi lo base : Int) : Int × Int :=
  let (hi, lo) :=
    if lo < 0 then
      let n := (-lo - 1) / base + 1
      (hi - n, lo + n * base)
    else (hi, lo)
  if lo ≥ base then
    let n := lo / base
    (hi + n, lo - n * base)
  else (hi, lo)

/-- The constructor `time.Date`, for the UTC location. -/
def Date (year month day hour min sec nsec : Int) : Time :=
  -- Normalize month, overflowing into year.
  let m := month - 1
  let (year, m) := norm year m 12
  let month := m + 1
  -- Normalize nsec, sec, min, hour, overflowing into day.
  let (sec, nsec) := norm sec nsec 1000000000
  let (min, sec) := norm min sec 60
  let (hour, min) := norm hour min 60
  let (day, hour) := norm day hour 24
  -- Compute days since the absolute epoch.
  let d := daysSinceEpoch year
  -- Add in days before this month.
  let d := d + daysBefore (month - 1)
  let d := if isLeap year && month ≥ 3 then d + 1 else d
  -- Add in days before today.
  let d := d + (day - 1)
  -- Add in time elapsed today.
  let abs := d * secondsPerDay
  let abs := abs + (hour * secondsPerHour + min * secondsPerMinute + sec)
  let unix := abs + (absoluteToInternal + internalToUnix)
  ⟨unix, nsec, UTC⟩

/-- The method `Time.Add`. The quotient and remainder by `10^9` truncate
toward zero, as Go's `/` and `%` do. -/
def Time.Add (t : Time) (d : Duration) : Time :=
  let dsec := Int.tdiv d 1000000000
  let nsec := t.nsec + Int.tmod d 1000000000
  if nsec ≥ 1000000000 then ⟨t.sec + (dsec + 1), nsec - 1000000000, t.loc⟩
  else if nsec < 0 then ⟨t.sec + (dsec - 1), nsec + 1000000000, t.loc⟩
  else ⟨t.sec + dsec, nsec, t.loc⟩

/-- The seconds of `t` on the absolute scale, shifted to the wall clock of
its location. -/
def Time.abs (t : Time) : Int :=
  t.sec + t.loc.lookup t.sec + (unixToInternal + internalToAbsolute)

/-- The first part of `absDate` (all of it when its flag `full` is false): the
year of an absolute time and the day within that year, counted from zero. -/
def absYearDay (abs : Int) : Int × Int :=
  -- Split into time and day.
  let d := abs / secondsPerDay
  -- Account for 400 year cycles.
  let n := d / daysPer400Years
  let y := 400 * n
  let d := d - daysPer400Years * n
  -- Cut off 100-year cycles.
  -- The last cycle has one extra leap year, so on the last day
  -- of that year, day / daysPer100Years will be 4 instead of 3.
  -- Cut it back down to 3 by subtracting n>>2.
  let n := d / daysPer100Years
  let n := n - n / 4
  let y := y + 100 * n
  let d := d - daysPer100Years * n
  -- Cut off 4-year cycles.
  let n := d / daysPer4Years
  let y := y + 4 * n
  let d := d - daysPer4Years * n
  -- Cut off years within a 4-year cycle.
  let n := d / 365
  let n := n - n / 4
  let y := y + n
  let d := d - 365 * n
  (y + absoluteZeroYear, d)

/-- The function `absDate` with its flag `full` set: year, month and day of
month of an absolute time. -/
def absDate (abs : Int) : Int × Int × Int :=
  let (year, yday) := absYearDay abs
  let day := yday
  if isLeap year && day = 31 + 29 - 1 then
    -- Leap day.
    (year, 2, 29)
  else
    -- After leap day; pretend it wasn't there.
    let day := if isLeap year && day > 31 + 29 - 1 then day - 1 else day
    -- Estimate month on assumption that every month has 31 days.
    -- The estimate may be too low by at most one month, so adjust.
    let month := day / 31
    let endd := daysBefore (month + 1)
    if day ≥ endd then (year, month + 1 + 1, day - endd + 1)
    else (year, month + 1, day - daysBefore month + 1)

/-- The function `absClock`: hour, minute and second of an absolute time. -/
def absClock (abs : Int) : Int × Int × Int :=
  let sec := abs % secondsPerDay
  let hour := sec / secondsPerHour
  let sec := sec - hour * secondsPerHour
  let min := sec / secondsPerMinute
  let sec := sec - min * secondsPerMinute
  (hour, min, sec)

/-! ### Formatting -/

/-- The decimal digits of `u`, most significant first (at most twenty, the
size of the buffer `appendInt` assembles them in). -/
def utoa : Nat → Nat → List Char → List Char
  | 0, _, acc => acc
  | fuel + 1, u, acc =>
    if u ≥ 10 then utoa fuel (u / 10) (Char.ofNat (48 + u % 10) :: acc)
    else Char.ofNat (48 + u) :: acc

/-- The function `appendInt`: the decimal form of `x`, zero-padded to
`width` digits, after a minus sign when `x` is negative. -/
def appendInt (x : Int) (width : Nat) : List Char :=
  let sign : List Char := if x < 0 then ['-'] else []
  let u := x.natAbs
  let digits := utoa 20 u []
  sign ++ List.replicate (width - digits.length) '0' ++ digits

/-- The function `appendNano` for the layout element `.000`: a period and
the first three of the nine digits of the nanoseconds. -/
def appendNano (nanosec : Int) : List Char :=
  '.' :: (appendInt nanosec 9).take 3

/-- The layout string of the activities routine. -/
def Layout : String := "2006-01-02T15:04:05.000Z"

/-- The method `Time.Format`, for the layout `2006-01-02T15:04:05.000Z`:
the elements `2006`, `01`, `02`, `15`, `04`, `05` and `.000` are replaced by
the fields of `t` on the wall clock of its location; `-`, `T`, `:` and the
final `Z` are literal text and are copied. -/
def Time.Format (t : Time) : String :=
  let abs := t.abs
  let (year, month, day) := absDate abs
  let (hour, min, sec) := absClock abs
  String.mk (appendInt year 4 ++ '-' :: appendInt month 2 ++ '-' :: appendInt day 2
    ++ 'T' :: appendInt hour 2 ++ ':' :: appendInt min 2 ++ ':' :: appendInt sec 2
    ++ appendNano t.nsec ++ ['Z'])

/-! ### Parsing -/

/-- The function `isDigit`: whether `s[i]` is in range and is a decimal digit. -/
def isDigit (s : List Char) (i : Nat) : Bool :=
  match s.get? i with
  | none => false
  | some c => '0' ≤ c && c ≤ '9'

/-- The value of the digit character `c`. -/
def digitVal (c : Char) : Int := (c.toNat : Int) - 48

/-- The function `getnum`: a two-digit number at the start of `s`, or a
one-digit number when `fixed` is false and only one digit is there. -/
def getnum (s : List Char) (fixed : Bool) : Option (Int × List Char) :=
  if !isDigit s 0 then none
  else if !isDigit s 1 then
    if fixed then none
    else some (digitVal (s.getD 0 '0'), s.drop 1)
  else some (digitVal (s.getD 0 '0') * 10 + digitVal (s.getD 1 '0'), s.drop 2)

/-- The function `leadingInt`: the leading digits of `s` as a number and the
rest of `s`, or nothing when the number overflows. -/
def leadingInt : List Char → Nat → Option (Nat × List Char)
  | [], x => some (x, [])
  | c :: rest, x =>
    if c < '0' || c > '9' then some (x, c :: rest)
    else if x > 2 ^ 63 / 10 then none
    else
      let x := x * 10 + (c.toNat - 48)
      if x > 2 ^ 63 then none else leadingInt rest x

/-- The function `atoi`: an optional sign and then digits only. -/
def atoi (s : List Char) : Option Int :=
  let neg : Bool := match s with
    | c :: _ => c = '-'
    | [] => false
  let s := match s with
    | c :: rest => if c = '-' || c = '+' then rest else s
    | [] => s
  match leadingInt s 0 with
  | some (q, []) => some (if neg then -(q : Int) else q)
  | _ => none

/-- The function `skip` for a one-character literal of the layout: the value
has to start with that character. -/
def skip (value : List Char) (lit : Char) : Option (List Char) :=
  match value with
  | c :: rest => if c = lit then some rest else none
  | [] => none

def commaOrPeriod (c : Char) : Bool := c = '.' || c = ','

/-- The function `parseNanoseconds` for the three digits of `.000`: a comma
or period, then `atoi` of the next three characters, scaled to nanoseconds.
The result is the number and whether it is out of range (negative). -/
def parseNanoseconds (value : List Char) : Option (Int × Bool) :=
  if !commaOrPeriod (value.getD 0 ' ') then none
  else match atoi ((value.drop 1).take 3) with
    | none => none
    | some ns => if ns < 0 then some (ns, true) else some (ns * 1000000, false)

def lowerhex (n : Nat) : Char := "0123456789abcdef".toList.getD n '0'

/-- The function `quote`: the text between double quotes, with a backslash
before a double quote or a backslash, and every byte of a control or
non-ASCII character as a hexadecimal escape. -/
def quote (s : List Char) : List Char :=
  Char.ofNat 34 :: s.flatMap (fun c =>
    if c.toNat ≥ 128 || c.toNat < 32 then
      (String.utf8EncodeChar c).flatMap (fun b =>
        [Char.ofNat 92, 'x', lowerhex (b.toNat / 16), lowerhex (b.toNat % 16)])
    else if c.toNat = 34 || c.toNat = 92 then [Char.ofNat 92, c]
    else [c]) ++ [Char.ofNat 34]

/-- The function `time.Parse`, for the layout `2006-01-02T15:04:05.000Z`.
The layout is the elements `2006` (four digits), `01`, `02` (two digits),
`15` (one or two digits), `04`, `05` (two digits), `.000` (a separator and
three digits), with the literal text `-`, `-`, `T`, `:`, `:` between them and
`Z` at the end. No zone is parsed, so the result is in UTC. -/
def Parse (avalue : String) : Except ParseError Time :=
  let fail (layoutElem : String) (valueElem : List Char) (msg : String) :
      Except ParseError Time :=
    .error ⟨Layout, avalue, layoutElem, String.mk valueElem, msg⟩
  let value := avalue.toList
  -- stdLongYear
  if value.length < 4 || !isDigit value 0 then fail "2006" value "" else
  match atoi (value.take 4) with
  | none => fail "2006" value ""
  | some year =>
  let value := value.drop 4
  match skip value '-' with
  | none => fail "-" value ""
  | some value =>
  -- stdZeroMonth
  match getnum value true with
  | none => fail "01" value ""
  | some (month, rest) =>
  if month ≤ 0 || 12 < month then fail "01" rest ": month out of range" else
  let value := rest
  match skip value '-' with
  | none => fail "-" value ""
  | some value =>
  -- stdZeroDay
  match getnum value true with
  | none => fail "02" value ""
  | some (day, value) =>
  match skip value 'T' with
  | none => fail "T" value ""
  | some value =>
  -- stdHour
  match getnum value false with
  | none => fail "15" value ""
  | some (hour, rest) =>
  if hour < 0 || 24 ≤ hour then fail "15" rest ": hour out of range" else
  let value := rest
  match skip value ':' with
  | none => fail ":" value ""
  | some value =>
  -- stdZeroMinute
  match getnum value true with
  | none => fail "04" value ""
  | some (min, rest) =>
  if min < 0 || 60 ≤ min then fail "04" rest ": minute out of range" else
  let value := rest
  match skip value ':' with
  | none => fail ":" value ""
  | some value =>
  -- stdZeroSecond
  match getnum value true with
  | none => fail "05" value ""
  | some (sec, rest) =>
  if sec < 0 || 60 ≤ sec then fail "05" rest ": second out of range" else
  let value := rest
  -- stdFracSecond0
  if value.length < 4 then fail ".000" value "" else
  match parseNanoseconds value with
  | none => fail ".000" value ""
  | some (_, true) => fail ".000" (value.drop 4) ": fractional second out of range"
  | some (nsec, false) =>
  let value := value.drop 4
  match skip value 'Z' with
  | none => fail "Z" value ""
  | some value =>
  if value.length ≠ 0 then
    fail "" value (": extra text: " ++ String.mk (quote value))
  else
  -- Validate the day of the month.
  if day < 1 || day > daysIn month year then fail "" value ": day out of range" else
  .ok (Date year month day hour min sec nsec)

end time

/-! ## The host: table descriptors and query data -/

namespace plugin

def Required : String := "required"
def Optional : String := "optional"

/-- A key column of a table: a filter the host may push down to the listing
routine, whether the host insists on it, and the operators it accepts (none
listed: the default). -/
structure KeyColumn where
  Name : String
  Require : String
  Operators : List String := []
  deriving DecidableEq, Repr

/-- One predicate on a column: its operator and the string value of its
literal (what `GetStringValue` returns). -/
structure Qual where
  Operator : String
  Value : String
  deriving DecidableEq, Repr

/-- The query data of one execution: `KeyColumnQuals` gives the string value
of the equality predicate on a key column when there is one, `Quals` the list
of all predicates on a column when there is any, `Limit` the row-limit hint of
the query context (a 64-bit integer) when the host supplied one. -/
structure QueryData where
  KeyColumnQuals : String → Option String
  Quals : String → Option (List Qual)
  Limit : Option Int

end plugin

/-- The errors the routines can return: a parse error of `time.Parse`, or an
error of the vendor client (its construction, or a page fetch). -/
inductive GoError where
  | parse (e : time.ParseError)
  | client (msg : String)
  deriving DecidableEq, Repr

/-! ## The vendor client: call builders -/

/-- The call `Activities.List`: its two path parameters and the URL parameters
its setters write (unset until a setter is called). -/
structure ActivitiesListCall where
  userKey : String
  applicationName : String
  maxResults : Option Int := none
  actorIpAddress : Option String := none
  customerId : Option String := none
  startTime : Option String := none
  endTime : Option String := none
  eventName : Option String := none
  filters : Option String := none
  orgUnitID : Option String := none
  groupIdFilter : Option String := none
  pageToken : Option String := none
  deriving DecidableEq, Repr

/-- The call `CustomerUsageReports.Get`. The vendor API has no page-size
parameter for this call, and the call type no setter for one. -/
structure CustomerUsageReportsGetCall where
  date : String
  customerId : Option String := none
  parameters : Option String := none
  pageToken : Option String := none
  deriving DecidableEq, Repr

/-- The call `EntityUsageReports.Get`. -/
structure EntityUsageReportsGetCall where
  entityType : String
  entityKey : String
  date : String
  maxResults : Option Int := none
  customerId : Option String := none
  filters : Option String := none
  parameters : Option String := none
  pageToken : Option String := none
  deriving DecidableEq, Repr

/-- The call `UserUsageReport.Get`. -/
structure UserUsageReportGetCall where
  userKey : String
  date : String
  maxResults : Option Int := none
  customerId : Option String := none
  filters : Option String := none
  groupIdFilter : Option String := none
  orgUnitID : Option String := none
  parameters : Option String := none
  pageToken : Option String := none
  deriving DecidableEq, Repr

def Activities.List (userKey applicationName : String) : ActivitiesListCall :=
  { userKey := userKey, applicationName := applicationName }

def CustomerUsageReports.Get (date : String) : CustomerUsageReportsGetCall :=
  { date := date }

def EntityUsageReports.Get (entityType entityKey date : String) : EntityUsageReportsGetCall :=
  { entityType := entityType, entityKey := entityKey, date := date }

def UserUsageReport.Get (userKey date : String) : UserUsageReportGetCall :=
  { userKey := userKey, date := date }

namespace ActivitiesListCall

def MaxResults (c : ActivitiesListCall) (maxResults : Int) : ActivitiesListCall :=
  { c with maxResults := some maxResults }

def ActorIpAddress (c : ActivitiesListCall) (actorIpAddress : String) : ActivitiesListCall :=
  { c with actorIpAddress := some actorIpAddress }

def CustomerId (c : ActivitiesListCall) (customerId : String) : ActivitiesListCall :=
  { c with customerId := some customerId }

def StartTime (c : ActivitiesListCall) (startTime : String) : ActivitiesListCall :=
  { c with startTime := some startTime }

def EndTime (c : ActivitiesListCall) (endTime : String) : ActivitiesListCall :=
  { c with endTime := some endTime }

def EventName (c : ActivitiesListCall) (eventName : String) : ActivitiesListCall :=
  { c with eventName := some eventName }

def Filters (c : ActivitiesListCall) (filters : String) : ActivitiesListCall :=
  { c with filters := some filters }

def OrgUnitID (c : ActivitiesListCall) (orgUnitID : String) : ActivitiesListCall :=
  { c with orgUnitID := some orgUnitID }

def GroupIdFilter (c : ActivitiesListCall) (groupIdFilter : String) : ActivitiesListCall :=
  { c with groupIdFilter := some groupIdFilter }

def PageToken (c : ActivitiesListCall) (pageToken : String) : ActivitiesListCall :=
  { c with pageToken := some pageToken }

end ActivitiesListCall

namespace CustomerUsageReportsGetCall

def CustomerId (c : CustomerUsageReportsGetCall) (customerId : String) :
    CustomerUsageReportsGetCall :=
  { c with customerId := some customerId }

def Parameters (c : CustomerUsageReportsGetCall) (parameters : String) :
    CustomerUsageReportsGetCall :=
  { c with parameters := some parameters }

def PageToken (c : CustomerUsageReportsGetCall) (pageToken : String) :
    CustomerUsageReportsGetCall :=
  { c with pageToken := some pageToken }

end CustomerUsageReportsGetCall

namespace EntityUsageReportsGetCall

def MaxResults (c : EntityUsageReportsGetCall) (maxResults : Int) : EntityUsageReportsGetCall :=
  { c with maxResults := some maxResults }

def CustomerId (c : EntityUsageReportsGetCall) (customerId : String) :
    EntityUsageReportsGetCall :=
  { c with customerId := some customerId }

def Filters (c : EntityUsageReportsGetCall) (filters : String) : EntityUsageReportsGetCall :=
  { c with filters := some filters }

def Parameters (c : EntityUsageReportsGetCall) (parameters : String) :
    EntityUsageReportsGetCall :=
  { c with parameters := some parameters }

def PageToken (c : EntityUsageReportsGetCall) (pageToken : String) :
    EntityUsageReportsGetCall :=
  { c with pageToken := some pageToken }

end EntityUsageReportsGetCall

namespace UserUsageReportGetCall

def MaxResults (c : UserUsageReportGetCall) (maxResults : Int) : UserUsageReportGetCall :=
  { c with maxResults := some maxResults }

def CustomerId (c : UserUsageReportGetCall) (customerId : String) : UserUsageReportGetCall :=
  { c with customerId := some customerId }

def Filters (c : UserUsageReportGetCall) (filters : String) : UserUsageReportGetCall :=
  { c with filters := some filters }

def GroupIdFilter (c : UserUsageReportGetCall) (groupIdFilter : String) :
    UserUsageReportGetCall :=
  { c with groupIdFilter := some groupIdFilter }

def OrgUnitID (c : UserUsageReportGetCall) (orgUnitID : String) : UserUsageReportGetCall :=
  { c with orgUnitID := some orgUnitID }

def Parameters (c : UserUsageReportGetCall) (parameters : String) : UserUsageReportGetCall :=
  { c with parameters := some parameters }

def PageToken (c : UserUsageReportGetCall) (pageToken : String) : UserUsageReportGetCall :=
  { c with pageToken := some pageToken }

end UserUsageReportGetCall

/-- A request of any of the four kinds. -/
inductive Request where
  | activities (c : ActivitiesListCall)
  | customerUsage (c : CustomerUsageReportsGetCall)
  | entityUsage (c : EntityUsageReportsGetCall)
  | userUsage (c : UserUsageReportGetCall)
  deriving DecidableEq, Repr

namespace Request

/-- The setter `PageToken` of the call inside the request. -/
def PageToken : Request → String → Request
  | activities c, tok => activities (c.PageToken tok)
  | customerUsage c, tok => customerUsage (c.PageToken tok)
  | entityUsage c, tok => entityUsage (c.PageToken tok)
  | userUsage c, tok => userUsage (c.PageToken tok)

/-- The page-size parameter of the request, when it carries one. -/
def maxResults : Request → Option Int
  | activities c => c.maxResults
  | customerUsage _ => none
  | entityUsage c => c.maxResults
  | userUsage c => c.maxResults

/-- The page token of the request, when it carries one. -/
def pageToken : Request → Option String
  | activities c => c.pageToken
  | customerUsage c => c.pageToken
  | entityUsage c => c.pageToken
  | userUsage c => c.pageToken

end Request

/-! ## The environment of a run -/

/-- One page of a report (`Activities` or `UsageReports`): its items (the
field `Items`, or `UsageReports`) and its continuation token (empty: no further
page). -/
structure Page (ι : Type) where
  Items : List ι
  NextPageToken : String
  deriving DecidableEq, Repr

/-- What a run of a listing routine reads from outside the query data:
the outcome of constructing the vendor client (`AdminReportsService`), the
clock (`time.Now`, in the local zone of the process), the outcome of each page
fetch (`Do i` is what the fetch number `i`, counted from zero, returns,
whatever request it carries) and the cancellation signal (`IsCancelled n` is
what the check after the `n`-th emitted row observes, `n` counted from one). -/
structure Env (ι : Type) where
  AdminReportsService : Except GoError Unit
  Now : time.Time
  Do : Nat → Except GoError (Page ι)
  IsCancelled : Nat → Bool

/-- What a run leaves behind: the rows handed to `StreamListItem`, in order;
the requests of the page fetches made, in order; the error returned, if any. -/
structure Outcome (ι : Type) where
  rows : List ι
  fetches : List Request
  err : Option GoError
  deriving DecidableEq, Repr

/-! ## The page streamer -/

/-- The loop over the items of a page in the callback each routine hands to
`Pages`: emit the item, then check the cancellation signal and leave the
loop if it is raised. The result is the rows emitted so far and whether the
loop was left on cancellation. -/
def streamItems {ι : Type} (IsCancelled : Nat → Bool) : List ι → List ι → List ι × Bool
  | [], rows => (rows, false)
  | item :: rest, rows =>
    let rows := rows ++ [item]
    if IsCancelled rows.length then (rows, true)
    else streamItems IsCancelled rest rows

/-- The callback each routine hands to `Pages`: stream the items of the page
and clear the page's continuation token on cancellation. It never returns an
error. -/
def streamPage {ι : Type} (IsCancelled : Nat → Bool) (page : Page ι) (rows : List ι) :
    Page ι × List ι :=
  match streamItems IsCancelled page.Items rows with
  | (rows, true) => ({ page with NextPageToken := "" }, rows)
  | (rows, false) => (page, rows)

/-- The method `Pages` of the vendor client's calls, with the callback
`streamPage`: fetch a page, return the error if the fetch fails, run the
callback, stop when the page's continuation token is empty, otherwise set it
on the call and go round again. The first argument bounds the number of
fetches; `none` is returned when the bound is reached. The deferred reset of
the call's page token when `Pages` returns is left out: the call is not used
afterwards. -/
def Pages {ι : Type} (env : Env ι) : Nat → Request → List Request → List ι → Option (Outcome ι)
  | 0, _, _, _ => none
  | fuel + 1, c, fetches, rows =>
    match env.Do fetches.length with
    | .error err => some ⟨rows, fetches ++ [c], some err⟩
    | .ok x =>
      match streamPage env.IsCancelled x rows with
      | (x, rows) =>
        if x.NextPageToken = "" then some ⟨rows, fetches ++ [c], none⟩
        else Pages env fuel (c.PageToken x.NextPageToken) (fetches ++ [c]) rows

/-- How far a routine gets before paging: it has returned `(nil, err)`, or it
has built the request it hands to `Pages`. -/
inductive Built (κ : Type) where
  | returned (err : Option GoError)
  | request (resp : κ)
  deriving DecidableEq, Repr

/-! ## Activities -/

def tableGoogleWorkspaceAdminReportsActivities.KeyColumns : List plugin.KeyColumn :=
  [ { Name := "application_name", Require := plugin.Required },
    { Name := "user_key", Require := plugin.Optional },
    { Name := "actor_ip_address", Require := plugin.Optional },
    { Name := "customer_id", Require := plugin.Optional },
    { Name := "time", Require := plugin.Optional, Operators := [">", ">=", "=", "<", "<="] },
    { Name := "event_name", Require := plugin.Optional },
    { Name := "filters", Require := plugin.Optional },
    { Name := "org_unit_id", Require := plugin.Optional },
    { Name := "group_id_filter", Require := plugin.Optional } ]

/-- The loop of `listAdminReportsActivities` over the predicates on `time`:
parse the literal (return the error if that fails), then call the setter or
setters of the operator. -/
def timeQuals : List plugin.Qual → ActivitiesListCall → Except time.ParseError ActivitiesListCall
  | [], resp => .ok resp
  | q :: quals, resp =>
    match time.Parse q.Value with
    | .error err => .error err
    | .ok givenTime =>
      let beforeTime := (givenTime.Add (-1 * time.Second)).Format
      let afterTime := (givenTime.Add (time.Second * 1)).Format
      let resp :=
        if q.Operator = ">" then resp.StartTime afterTime
        else if q.Operator = ">=" then resp.StartTime givenTime.Format
        else if q.Operator = "=" then (resp.StartTime givenTime.Format).EndTime givenTime.Format
        else if q.Operator = "<=" then resp.EndTime givenTime.Format
        else if q.Operator = "<" then resp.EndTime beforeTime
        else resp
      timeQuals quals resp

/-- The routine `listAdminReportsActivities` up to the call of `Pages`. The
line that prints the optional filters to standard output is left out: it
changes neither the request nor what the routine returns. -/
def activitiesRequest {ι : Type} (env : Env ι) (d : plugin.QueryData) :
    Built ActivitiesListCall :=
  -- Create service
  match env.AdminReportsService with
  | .error err => .returned (some err)
  | .ok _ =>
  match d.KeyColumnQuals "application_name" with
  | none => .returned none
  | some applicationName =>
  let user_key :=
    match d.KeyColumnQuals "user_key" with
    | some v => v
    | none => "all"
  -- Setting the maximum number of messages, API can return in a single page
  let maxResults : Int := 1000
  let maxResults :=
    match d.Limit with
    | some limit => if limit < maxResults then limit else maxResults
    | none => maxResults
  let resp := (Activities.List user_key applicationName).MaxResults maxResults
  let resp :=
    match d.KeyColumnQuals "actor_ip_address" with
    | some actor_ip_address => resp.ActorIpAddress actor_ip_address
    | none => resp
  let resp :=
    match d.KeyColumnQuals "customer_id" with
    | some customer_id => resp.CustomerId customer_id
    | none => resp
  let timed :=
    match d.Quals "time" with
    | some quals => timeQuals quals resp
    | none => .ok (resp.StartTime (env.Now.Add (-24 * time.Hour)).Format)
  match timed with
  | .error err => .returned (some (.parse err))
  | .ok resp =>
  let resp :=
    match d.KeyColumnQuals "event_name" with
    | some event_name => resp.EventName event_name
    | none => resp
  let resp :=
    match d.KeyColumnQuals "filters" with
    | some filters => resp.Filters filters
    | none => resp
  let resp :=
    match d.KeyColumnQuals "org_unit_id" with
    | some org_unit_id => resp.OrgUnitID org_unit_id
    | none => resp
  let resp :=
    match d.KeyColumnQuals "group_id_filter" with
    | some group_id_filter => resp.GroupIdFilter group_id_filter
    | none => resp
  .request resp

def listAdminReportsActivities {ι : Type} (env : Env ι) (d : plugin.QueryData) (fuel : Nat) :
    Option (Outcome ι) :=
  match activitiesRequest env d with
  | .returned err => some ⟨[], [], err⟩
  | .request resp => Pages env fuel (.activities resp) [] []

/-! ## Customer usage -/

def tableGoogleWorkspaceAdminReportsCustomerUsage.KeyColumns : List plugin.KeyColumn :=
  [ { Name := "date", Require := plugin.Required },
    { Name := "customer_id", Require := plugin.Optional },
    { Name := "parameters", Require := plugin.Optional } ]

/-- The routine `listAdminReportsCustomerUsage` up to the call of `Pages`. -/
def customerUsageRequest {ι : Type} (env : Env ι) (d : plugin.QueryData) :
    Built CustomerUsageReportsGetCall :=
  -- Create service
  match env.AdminReportsService with
  | .error err => .returned (some err)
  | .ok _ =>
  match d.KeyColumnQuals "date" with
  | none => .returned none
  | some date =>
  let resp := CustomerUsageReports.Get date
  let resp :=
    match d.KeyColumnQuals "customer_id" with
    | some customer_id => resp.CustomerId customer_id
    | none => resp
  let resp :=
    match d.KeyColumnQuals "parameters" with
    | some parameters => resp.Parameters parameters
    | none => resp
  .request resp

def listAdminReportsCustomerUsage {ι : Type} (env : Env ι) (d : plugin.QueryData) (fuel : Nat) :
    Option (Outcome ι) :=
  match customerUsageRequest env d with
  | .returned err => some ⟨[], [], err⟩
  | .request resp => Pages env fuel (.customerUsage resp) [] []

/-! ## Entity usage -/

def tableGoogleWorkspaceAdminReportsEntityUsage.KeyColumns : List plugin.KeyColumn :=
  [ { Name := "date", Require := plugin.Required },
    { Name := "entity_type", Require := plugin.Required },
    { Name := "entity_key", Require := plugin.Optional },
    { Name := "customer_id", Require := plugin.Optional },
    { Name := "filters", Require := plugin.Optional },
    { Name := "parameters", Require := plugin.Optional } ]

/-- The routine `listAdminReportsEntityUsage` up to the call of `Pages`. -/
def entityUsageRequest {ι : Type} (env : Env ι) (d : plugin.QueryData) :
    Built EntityUsageReportsGetCall :=
  -- Create service
  match env.AdminReportsService with
  | .error err => .returned (some err)
  | .ok _ =>
  match d.KeyColumnQuals "date" with
  | none => .returned none
  | some date =>
  match d.KeyColumnQuals "entity_type" with
  | none => .returned none
  | some entity_type =>
  let entity_key :=
    match d.KeyColumnQuals "entity_key" with
    | some v => v
    | none => "all"
  -- Setting the maximum number of messages, API can return in a single page
  let maxResults : Int := 1000
  let maxResults :=
    match d.Limit with
    | some limit => if limit < maxResults then limit else maxResults
    | none => maxResults
  let resp := (EntityUsageReports.Get entity_type entity_key date).MaxResults maxResults
  let resp :=
    match d.KeyColumnQuals "customer_id" with
    | some customer_id => resp.CustomerId customer_id
    | none => resp
  let resp :=
    match d.KeyColumnQuals "parameters" with
    | some parameters => resp.Parameters parameters
    | none => resp
  let resp :=
    match d.KeyColumnQuals "filters" with
    | some filters => resp.Filters filters
    | none => resp
  .request resp

def listAdminReportsEntityUsage {ι : Type} (env : Env ι) (d : plugin.QueryData) (fuel : Nat) :
    Option (Outcome ι) :=
  match entityUsageRequest env d with
  | .returned err => some ⟨[], [], err⟩
  | .request resp => Pages env fuel (.entityUsage resp) [] []

/-! ## User usage -/

def tableGoogleWorkspaceAdminReportsUserUsage.KeyColumns : List plugin.KeyColumn :=
  [ { Name := "date", Require := plugin.Required },
    { Name := "user_key", Require := plugin.Optional },
    { Name := "customer_id", Require := plugin.Optional },
    { Name := "org_unit_id", Require := plugin.Optional },
    { Name := "filters", Require := plugin.Optional },
    { Name := "parameters", Require := plugin.Optional },
    { Name := "group_id_filter", Require := plugin.Optional } ]

/-- The routine `listAdminReportsUserUsage` up to the call of `Pages`. -/
def userUsageRequest {ι : Type} (env : Env ι) (d : plugin.QueryData) :
    Built UserUsageReportGetCall :=
  -- Create service
  match env.AdminReportsService with
  | .error err => .returned (some err)
  | .ok _ =>
  match d.KeyColumnQuals "date" with
  | none => .returned none
  | some date =>
  let user_key :=
    match d.KeyColumnQuals "user_key" with
    | some v => v
    | none => "all"
  -- Setting the maximum number of messages, API can return in a single page
  let maxResults : Int := 1000
  let maxResults :=
    match d.Limit with
    | some limit => if limit < maxResults then limit else maxResults
    | none => maxResults
  let resp := (UserUsageReport.Get user_key date).MaxResults maxResults
  let resp :=
    match d.KeyColumnQuals "customer_id" with
    | some customer_id => resp.CustomerId customer_id
    | none => resp
  let resp :=
    match d.KeyColumnQuals "parameters" with
    | some parameters => resp.Parameters parameters
    | none => resp
  let resp :=
    match d.KeyColumnQuals "org_unit_id" with
    | some org_unit_id => resp.OrgUnitID org_unit_id
    | none => resp
  let resp :=
    match d.KeyColumnQuals "filters" with
    | some filters => resp.Filters filters
    | none => resp
  let resp :=
    match d.KeyColumnQuals "group_id_filter" with
    | some group_id_filter => resp.GroupIdFilter group_id_filter
    | none => resp
  .request resp

def listAdminReportsUserUsage {ι : Type} (env : Env ι) (d : plugin.QueryData) (fuel : Nat) :
    Option (Outcome ι) :=
  match userUsageRequest env d with
  | .returned err => some ⟨[], [], err⟩
  | .request resp => Pages env fuel (.userUsage resp) [] []

/-! ## The four tables together -/

/-- The four tables of the plugin. -/
inductive Table where
  | activities
  | customerUsage
  | entityUsage
  | userUsage
  deriving DecidableEq, Repr

namespace Table

def KeyColumns : Table → List plugin.KeyColumn
  | activities => tableGoogleWorkspaceAdminReportsActivities.KeyColumns
  | customerUsage => tableGoogleWorkspaceAdminReportsCustomerUsage.KeyColumns
  | entityUsage => tableGoogleWorkspaceAdminReportsEntityUsage.KeyColumns
  | userUsage => tableGoogleWorkspaceAdminReportsUserUsage.KeyColumns

/-- The names of the key columns of the table with the given `Require`. -/
def keys (t : Table) (require : String) : List String :=
  (t.KeyColumns.filter (fun k => k.Require = require)).map (fun k => k.Name)

/-- The listing routine of the table (its `List.Hydrate`). -/
def Hydrate {ι : Type} (t : Table) (env : Env ι) (d : plugin.QueryData) (fuel : Nat) :
    Option (Outcome ι) :=
  match t with
  | activities => listAdminReportsActivities env d fuel
  | customerUsage => listAdminReportsCustomerUsage env d fuel
  | entityUsage => listAdminReportsEntityUsage env d fuel
  | userUsage => listAdminReportsUserUsage env d fuel

/-- The request the listing routine of the table builds, when it gets as far
as paging. -/
def request {ι : Type} (t : Table) (env : Env ι) (d : plugin.QueryData) : Built Request :=
  match t with
  | activities =>
    match activitiesRequest env d with
    | .returned err => .returned err
    | .request resp => .request (.activities resp)
  | customerUsage =>
    match customerUsageRequest env d with
    | .returned err => .returned err
    | .request resp => .request (.customerUsage resp)
  | entityUsage =>
    match entityUsageRequest env d with
    | .returned err => .returned err
    | .request resp => .request (.entityUsage resp)
  | userUsage =>
    match userUsageRequest env d with
    | .returned err => .returned err
    | .request resp => .request (.userUsage resp)

end Table

/-! ## Vocabulary of the statements -/

/-- The items of the first `n` pages of a sequence of pages, concatenated in
page order. -/
def itemsUpTo {ι : Type} (pg : Nat → Page ι) : Nat → List ι
  | 0 => []
  | n + 1 => itemsUpTo pg n ++ (pg n).Items

/-- The method `Time.UTC`: the same instant, presented in UTC. -/
def time.Time.UTC (t : time.Time) : time.Time := { t with loc := time.UTC }

/-- The page size the routines with a page-size parameter compute from the
row-limit hint. -/
def pageSize (limit : Option Int) : Int :=
  match limit with
  | none => 1000
  | some l => if l < 1000 then l else 1000

namespace Request

/-- The URL parameter of the request that carries the filter on the key column
named `k` (`actor_ip_address` is sent as `actorIpAddress`, `customer_id` as
`customerId`, and so on); `none` when the parameter is unset or the call has
no such parameter. -/
def param (r : Request) (k : String) : Option String :=
  match r with
  | activities c =>
    if k = "actor_ip_address" then c.actorIpAddress
    else if k = "customer_id" then c.customerId
    else if k = "event_name" then c.eventName
    else if k = "filters" then c.filters
    else if k = "org_unit_id" then c.orgUnitID
    else if k = "group_id_filter" then c.groupIdFilter
    else none
  | customerUsage c =>
    if k = "customer_id" then c.customerId
    else if k = "parameters" then c.parameters
    else none
  | entityUsage c =>
    if k = "customer_id" then c.customerId
    else if k = "filters" then c.filters
    else if k = "parameters" then c.parameters
    else none
  | userUsage c =>
    if k = "customer_id" then c.customerId
    else if k = "org_unit_id" then c.orgUnitID
    else if k = "filters" then c.filters
    else if k = "parameters" then c.parameters
    else if k = "group_id_filter" then c.groupIdFilter
    else none

/-- The user key or entity key the request passes to the API as a path
parameter, for the calls that have one. -/
def key : Request → Option String
  | activities c => some c.userKey
  | customerUsage _ => none
  | entityUsage c => some c.entityKey
  | userUsage c => some c.userKey

end Request

/-- The key column that supplies the user key or entity key of the table's
call, for the tables whose call has one. -/
def Table.keyColumn : Table → Option String
  | .activities => some "user_key"
  | .customerUsage => none
  | .entityUsage => some "entity_key"
  | .userUsage => some "user_key"

/-- The character of the decimal digit `k mod 10`. -/
def digitChar (k : Nat) : Char := Char.ofNat (48 + k % 10)

/-- The last `w` decimal digits of `u`, most significant first. -/
def digitsN : Nat → Nat → List Char
  | 0, _ => []
  | w + 1, u => digitsN w (u / 10) ++ [digitChar u]

/-! ## Concrete runs -/

namespace Sample

/-- Three pages of items; the third has no continuation token. -/
def pages : Nat → Page Nat
  | 0 => ⟨[11, 12, 13], "p1"⟩
  | 1 => ⟨[21, 22], "p2"⟩
  | _ => ⟨[31], ""⟩

/-- A page of ten items with a continuation token. -/
def tenItems : Nat → Page Nat :=
  fun _ => ⟨[1, 2, 3, 4, 5, 6, 7, 8, 9, 10], "more"⟩

/-- An environment in which the client is constructed, every fetch succeeds
with the pages of `pages`, the signal is never raised, and the clock reads
2022-09-26 17:26:32.245 in a zone nine hours east of UTC. -/
def env : Env Nat :=
  { AdminReportsService := .ok ()
    Now := ⟨1664180792, 245000000, time.FixedZone 32400⟩
    Do := fun i => .ok (pages i)
    IsCancelled := fun _ => false }

/-- The environment `env` with the signal raised from the check after the
third row on, and every fetch returning a page of ten items. -/
def envCancelled : Env Nat :=
  { env with Do := fun i => .ok (tenItems i), IsCancelled := fun n => decide (3 ≤ n) }

/-- The environment `env` with the second fetch failing. -/
def envSecondFails : Env Nat :=
  { env with Do := fun i => if i = 0 then .ok (pages 0) else .error (.client "backendError") }

/-- The environment `env` with the construction of the client failing. -/
def envNoClient : Env Nat :=
  { env with AdminReportsService := .error (.client "credentials not found") }

/-- A query with the required filters of every table, a customer id, and a
row limit of 50. -/
def query : plugin.QueryData :=
  { KeyColumnQuals := fun k =>
      if k = "application_name" then some "drive"
      else if k = "date" then some "2022-09-25"
      else if k = "entity_type" then some "gplus_communities"
      else if k = "customer_id" then some "C03az79cb"
      else none
    Quals := fun _ => none
    Limit := some 50 }

/-- The query `query` with a row limit of 5000. -/
def queryLimit5000 : plugin.QueryData := { query with Limit := some 5000 }

/-- The query `query` with one predicate on `time`. -/
def queryTime (op s : String) : plugin.QueryData :=
  { query with Quals := fun k => if k = "time" then some [⟨op, s⟩] else none }

/-- The query `query` with two predicates on `time`, the second malformed
(two digits of milliseconds). -/
def queryBadTime : plugin.QueryData :=
  { query with
    Quals := fun k =>
      if k = "time" then
        some [⟨">", "2022-12-31T23:59:59.000Z"⟩, ⟨"<", "2024-03-01T00:00:00.00Z"⟩]
      else none }

/-- A query with no filter at all. -/
def queryEmpty : plugin.QueryData :=
  { KeyColumnQuals := fun _ => none
    Quals := fun _ => none
    Limit := none }

end Sample

/-! ## The net effect of the predicates on `time`, in the words of the design notes -/

/-- Whether the operator of the predicate sets the start bound. -/
def setsStartTime (q : plugin.Qual) : Bool :=
  q.Operator = ">" || q.Operator = ">=" || q.Operator = "="

/-- Whether the operator of the predicate sets the end bound. -/
def setsEndTime (q : plugin.Qual) : Bool :=
  q.Operator = "<" || q.Operator = "<=" || q.Operator = "="

/-- The start bound a predicate determines: its instant plus one second for
`>`, its instant otherwise; nothing when its literal does not parse. -/
def startBoundOf (q : plugin.Qual) : Option String :=
  match time.Parse q.Value with
  | .ok T => some (if q.Operator = ">" then (T.Add time.Second).Format else T.Format)
  | .error _ => none

/-- The end bound a predicate determines: its instant minus one second for
`<`, its instant otherwise; nothing when its literal does not parse. -/
def endBoundOf (q : plugin.Qual) : Option String :=
  match time.Parse q.Value with
  | .ok T => some (if q.Operator = "<" then (T.Add (-time.Second)).Format else T.Format)
  | .error _ => none

/-- The start bound determined by the last predicate of the list whose operator
is `>`, `>=` or `=`; none if there is no such predicate. -/
def lastStartBound (quals : List plugin.Qual) : Option String :=
  (quals.filter setsStartTime).getLast?.bind startBoundOf

/-- The end bound determined by the last predicate of the list whose operator
is `<`, `<=` or `=`; none if there is no such predicate. -/
def lastEndBound (quals : List plugin.Qual) : Option String :=
  (quals.filter setsEndTime).getLast?.bind endBoundOf

namespace Sample

/-- The query `query` with the predicates `time > 2022-12-31T23:59:59.000Z`,
`time < 2023-06-01T00:00:00.000Z` and `time > 2022-01-01T00:00:00.000Z`, in
that order. -/
def queryThreeTimes : plugin.QueryData :=
  { query with
    Quals := fun k =>
      if k = "time" then
        some [⟨">", "2022-12-31T23:59:59.000Z"⟩, ⟨"<", "2023-06-01T00:00:00.000Z"⟩,
          ⟨">", "2022-01-01T00:00:00.000Z"⟩]
      else none }

/-- The predicates of `queryBadTime` with no other filter: the application
name is absent. -/
def queryBadTimeOnly : plugin.QueryData :=
  { queryEmpty with Quals := queryBadTime.Quals }

end Sample

/-! ## Literals in the shape of the layout -/

/-- Whether `s` is written in the shape of the layout
`2006-01-02T15:04:05.000Z`: twenty-four characters, a decimal digit wherever
the layout has a digit, and the character of the layout everywhere else. -/
def inLayoutShape (s : String) : Bool :=
  match s.toList with
  | [y3, y2, y1, y0, c4, m1, m0, c7, d1, d0, c10, h1, h0, c13, i1, i0, c16, s1, s0, c19,
      n2, n1, n0, c23] =>
    [y3, y2, y1, y0, m1, m0, d1, d0, h1, h0, i1, i0, s1, s0, n2, n1, n0].all Char.isDigit &&
      decide ([c4, c7, c10, c13, c16, c19, c23] = ['-', '-', 'T', ':', ':', '.', 'Z'])
  | _ => false

/-! ## The page streamer: lemmas -/

theorem streamItems_of_not_cancelled {ι : Type} (C : Nat → Bool) (items : List ι) :
    ∀ rows : List ι,
      (∀ j, rows.length < j → j ≤ rows.length + items.length → C j = false) →
      streamItems C items rows = (rows ++ items, false) := by
  induction items with
  | nil => intro rows _; simp [streamItems]
  | cons item rest ih =>
    intro rows h
    have h1 : C (rows.length + 1) = false := by
      apply h <;> simp
    have h2 := ih (rows ++ [item]) (by
      intro j hj hj'
      apply h
      · simp at hj; omega
      · simp at hj' ⊢; omega)
    simp [streamItems, h1, h2]

theorem streamItems_of_cancelled {ι : Type} (C : Nat → Bool) (items : List ι) :
    ∀ (rows : List ι) (m : Nat), 1 ≤ m → m ≤ items.length →
      (∀ j, rows.length < j → j < rows.length + m → C j = false) →
      C (rows.length + m) = true →
      streamItems C items rows = (rows ++ items.take m, true) := by
  induction items with
  | nil => intro rows m h1 h2; simp at h2; omega
  | cons item rest ih =>
    intro rows m h1 h2 hno hc
    by_cases hm : m = 1
    · subst hm
      simp [streamItems, hc]
    · have h0 : C (rows.length + 1) = false := by
        apply hno <;> omega
      obtain ⟨m', rfl⟩ : ∃ m', m = m' + 1 := ⟨m - 1, by omega⟩
      have h3 := ih (rows ++ [item]) m' (by omega) (by simpa using h2)
        (by
          intro j hj hj'
          apply hno
          · simp at hj; omega
          · simp at hj'; omega)
        (by simpa [Nat.add_assoc, Nat.add_comm 1 m'] using hc)
      simp [streamItems, h0, h3]

theorem Pages_prefix {ι : Type} (env : Env ι) (pg : Nat → Page ι) (c : Request) :
    ∀ n : Nat,
      (∀ i < n, env.Do i = .ok (pg i)) →
      (∀ i < n, (pg i).NextPageToken ≠ "") →
      (∀ j, j ≤ (itemsUpTo pg n).length → env.IsCancelled j = false) →
      ∃ (c' : Request) (fetches : List Request), fetches.length = n ∧
        ∀ fuel, Pages env (fuel + n) c [] [] = Pages env fuel c' fetches (itemsUpTo pg n) := by
  intro n
  induction n with
  | zero => intro _ _ _; exact ⟨c, [], rfl, fun fuel => rfl⟩
  | succ n ih =>
    intro hok hmore hnc
    obtain ⟨c', fetches, hlen, hrun⟩ := ih (fun i hi => hok i (by omega))
      (fun i hi => hmore i (by omega))
      (fun j hj => hnc j (by simp [itemsUpTo]; omega))
    refine ⟨c'.PageToken (pg n).NextPageToken, fetches ++ [c'], by simp [hlen], ?_⟩
    intro fuel
    have hs := streamItems_of_not_cancelled env.IsCancelled (pg n).Items (itemsUpTo pg n)
      (fun j _ hj => hnc j (by simpa [itemsUpTo] using hj))
    have := hrun (fuel + 1)
    rw [show fuel + (n + 1) = fuel + 1 + n by omega, this]
    simp [Pages, hlen, hok n (Nat.lt_succ_self n), streamPage, hs, hmore n (Nat.lt_succ_self n),
      itemsUpTo]

/-! ## The request builders: lemmas -/

theorem timeQuals_error (quals : List plugin.Qual) :
    ∀ resp : ActivitiesListCall,
      (∃ q ∈ quals, ∀ T, time.Parse q.Value ≠ .ok T) →
      ∃ e, timeQuals quals resp = .error e ∧ ∃ q ∈ quals, time.Parse q.Value = .error e := by
  induction quals with
  | nil => intro resp h; simp at h
  | cons q quals ih =>
    intro resp h
    cases hq : time.Parse q.Value with
    | error e => exact ⟨e, by simp [timeQuals, hq], q, List.mem_cons_self _ _, hq⟩
    | ok T =>
      obtain ⟨q', hq', hbad⟩ := h
      have hq'' : q' ∈ quals := by
        rcases List.mem_cons.mp hq' with rfl | h'
        · exact absurd hq (hbad T)
        · exact h'
      simp only [timeQuals, hq]
      obtain ⟨e, he, q2, hq2, hp⟩ := ih _ ⟨q', hq'', hbad⟩
      exact ⟨e, he, q2, List.mem_cons_of_mem _ hq2, hp⟩

theorem customerUsageRequest_eq {ι : Type} (env : Env ι) (d : plugin.QueryData) (date : String)
    (hsvc : env.AdminReportsService = .ok ())
    (hdate : d.KeyColumnQuals "date" = some date) :
    customerUsageRequest env d = .request
      { date := date
        customerId := d.KeyColumnQuals "customer_id"
        parameters := d.KeyColumnQuals "parameters"
        pageToken := none } := by
  simp only [customerUsageRequest, hsvc, hdate]
  cases d.KeyColumnQuals "customer_id" <;> cases d.KeyColumnQuals "parameters" <;> rfl

theorem entityUsageRequest_eq {ι : Type} (env : Env ι) (d : plugin.QueryData)
    (date entity_type : String)
    (hsvc : env.AdminReportsService = .ok ())
    (hdate : d.KeyColumnQuals "date" = some date)
    (htype : d.KeyColumnQuals "entity_type" = some entity_type) :
    entityUsageRequest env d = .request
      { entityType := entity_type
        entityKey := (d.KeyColumnQuals "entity_key").getD "all"
        date := date
        maxResults := some (pageSize d.Limit)
        customerId := d.KeyColumnQuals "customer_id"
        filters := d.KeyColumnQuals "filters"
        parameters := d.KeyColumnQuals "parameters"
        pageToken := none } := by
  simp only [entityUsageRequest, hsvc, hdate, htype]
  cases d.KeyColumnQuals "entity_key" <;> cases d.KeyColumnQuals "customer_id" <;>
    cases d.KeyColumnQuals "parameters" <;> cases d.KeyColumnQuals "filters" <;>
    cases d.Limit <;> rfl

theorem userUsageRequest_eq {ι : Type} (env : Env ι) (d : plugin.QueryData) (date : String)
    (hsvc : env.AdminReportsService = .ok ())
    (hdate : d.KeyColumnQuals "date" = some date) :
    userUsageRequest env d = .request
      { userKey := (d.KeyColumnQuals "user_key").getD "all"
        date := date
        maxResults := some (pageSize d.Limit)
        customerId := d.KeyColumnQuals "customer_id"
        filters := d.KeyColumnQuals "filters"
        groupIdFilter := d.KeyColumnQuals "group_id_filter"
        orgUnitID := d.KeyColumnQuals "org_unit_id"
        parameters := d.KeyColumnQuals "parameters"
        pageToken := none } := by
  simp only [userUsageRequest, hsvc, hdate]
  cases d.KeyColumnQuals "user_key" <;> cases d.KeyColumnQuals "customer_id" <;>
    cases d.KeyColumnQuals "parameters" <;> cases d.KeyColumnQuals "org_unit_id" <;>
    cases d.KeyColumnQuals "filters" <;> cases d.KeyColumnQuals "group_id_filter" <;>
    cases d.Limit <;> rfl

/-- The request of the activities routine, given what the step that sets the
time bounds does to a call that has no bound yet. -/
theorem activitiesRequest_of_bounds {ι : Type} (env : Env ι) (d : plugin.QueryData)
    (app : String) (st en : Option String)
    (hsvc : env.AdminReportsService = .ok ())
    (happ : d.KeyColumnQuals "application_name" = some app)
    (hb : ∀ resp : ActivitiesListCall, resp.startTime = none → resp.endTime = none →
      (match d.Quals "time" with
        | some quals => timeQuals quals resp
        | none => .ok (resp.StartTime (env.Now.Add (-24 * time.Hour)).Format)) =
        .ok { resp with startTime := st, endTime := en }) :
    activitiesRequest env d = .request
      { userKey := (d.KeyColumnQuals "user_key").getD "all"
        applicationName := app
        maxResults := some (pageSize d.Limit)
        actorIpAddress := d.KeyColumnQuals "actor_ip_address"
        customerId := d.KeyColumnQuals "customer_id"
        startTime := st
        endTime := en
        eventName := d.KeyColumnQuals "event_name"
        filters := d.KeyColumnQuals "filters"
        orgUnitID := d.KeyColumnQuals "org_unit_id"
        groupIdFilter := d.KeyColumnQuals "group_id_filter"
        pageToken := none } := by
  simp only [activitiesRequest, hsvc, happ]
  cases d.KeyColumnQuals "user_key" <;> cases d.KeyColumnQuals "customer_id" <;>
    cases d.KeyColumnQuals "actor_ip_address" <;> cases d.Limit <;>
    (simp only []
     rw [hb _ rfl rfl]
     cases d.KeyColumnQuals "org_unit_id" <;>
     cases d.KeyColumnQuals "filters" <;> cases d.KeyColumnQuals "group_id_filter" <;>
     cases d.KeyColumnQuals "event_name" <;> rfl)

theorem timeQuals_of_unbounded (quals : List plugin.Qual) (resp : ActivitiesListCall)
    (h : ∀ q ∈ quals, ∃ T, time.Parse q.Value = .ok T) :
    ∃ st en, ∀ resp' : ActivitiesListCall,
      resp'.startTime = resp.startTime → resp'.endTime = resp.endTime →
      timeQuals quals resp' = .ok { resp' with startTime := st, endTime := en } := by
  induction quals generalizing resp with
  | nil =>
    refine ⟨resp.startTime, resp.endTime, ?_⟩
    intro resp' h1 h2
    cases resp'
    simp only [] at h1 h2
    subst h1 h2
    rfl
  | cons q quals ih =>
    obtain ⟨T, hT⟩ := h q (List.mem_cons_self _ _)
    have hrest : ∀ q' ∈ quals, ∃ T, time.Parse q'.Value = .ok T :=
      fun q' hq' => h q' (List.mem_cons_of_mem _ hq')
    simp only [timeQuals, hT]
    split_ifs
    · obtain ⟨st, en, hh⟩ := ih (resp.StartTime (T.Add (time.Second * 1)).Format) hrest
      exact ⟨st, en, fun resp' h1 h2 => hh _ rfl h2⟩
    · obtain ⟨st, en, hh⟩ := ih (resp.StartTime T.Format) hrest
      exact ⟨st, en, fun resp' h1 h2 => hh _ rfl h2⟩
    · obtain ⟨st, en, hh⟩ := ih ((resp.StartTime T.Format).EndTime T.Format) hrest
      exact ⟨st, en, fun resp' h1 h2 => hh _ rfl rfl⟩
    · obtain ⟨st, en, hh⟩ := ih (resp.EndTime T.Format) hrest
      exact ⟨st, en, fun resp' h1 h2 => hh _ h1 rfl⟩
    · obtain ⟨st, en, hh⟩ := ih (resp.EndTime (T.Add (-1 * time.Second)).Format) hrest
      exact ⟨st, en, fun resp' h1 h2 => hh _ h1 rfl⟩
    · obtain ⟨st, en, hh⟩ := ih resp hrest
      exact ⟨st, en, fun resp' h1 h2 => hh _ h1 h2⟩

/-- When the client is constructed, the application name is supplied and
every literal of a predicate on `time` parses, the activities routine builds
a request, and every parameter but the two time bounds is read off the query
data. -/
theorem activitiesRequest_eq {ι : Type} (env : Env ι) (d : plugin.QueryData) (app : String)
    (hsvc : env.AdminReportsService = .ok ())
    (happ : d.KeyColumnQuals "application_name" = some app)
    (htime : ∀ quals, d.Quals "time" = some quals →
      ∀ q ∈ quals, ∃ T, time.Parse q.Value = .ok T) :
    ∃ st en, activitiesRequest env d = .request
      { userKey := (d.KeyColumnQuals "user_key").getD "all"
        applicationName := app
        maxResults := some (pageSize d.Limit)
        actorIpAddress := d.KeyColumnQuals "actor_ip_address"
        customerId := d.KeyColumnQuals "customer_id"
        startTime := st
        endTime := en
        eventName := d.KeyColumnQuals "event_name"
        filters := d.KeyColumnQuals "filters"
        orgUnitID := d.KeyColumnQuals "org_unit_id"
        groupIdFilter := d.KeyColumnQuals "group_id_filter"
        pageToken := none } := by
  cases hq : d.Quals "time" with
  | none =>
    refine ⟨some (env.Now.Add (-24 * time.Hour)).Format, none, ?_⟩
    apply activitiesRequest_of_bounds env d app _ _ hsvc happ
    intro resp h1 h2
    rw [hq]
    cases resp
    simp only [] at h1 h2
    subst h1 h2
    rfl
  | some quals =>
    obtain ⟨st, en, hh⟩ := timeQuals_of_unbounded quals (Activities.List "" "") (htime quals hq)
    refine ⟨st, en, ?_⟩
    apply activitiesRequest_of_bounds env d app _ _ hsvc happ
    intro resp h1 h2
    rw [hq]
    exact hh resp h1 h2

/-! ## The four tables together: lemmas -/

theorem Table.Hydrate_eq {ι : Type} (t : Table) (env : Env ι) (d : plugin.QueryData)
    (fuel : Nat) :
    t.Hydrate env d fuel =
      match t.request env d with
      | .returned err => some ⟨[], [], err⟩
      | .request req => Pages env fuel req [] [] := by
  cases t
  · simp only [Table.Hydrate, Table.request, listAdminReportsActivities]
    cases activitiesRequest env d <;> rfl
  · simp only [Table.Hydrate, Table.request, listAdminReportsCustomerUsage]
    cases customerUsageRequest env d <;> rfl
  · simp only [Table.Hydrate, Table.request, listAdminReportsEntityUsage]
    cases entityUsageRequest env d <;> rfl
  · simp only [Table.Hydrate, Table.request, listAdminReportsUserUsage]
    cases userUsageRequest env d <;> rfl

theorem Table.keys_required_activities :
    Table.activities.keys plugin.Required = ["application_name"] := by decide

theorem Table.keys_required_customerUsage :
    Table.customerUsage.keys plugin.Required = ["date"] := by decide

theorem Table.keys_required_entityUsage :
    Table.entityUsage.keys plugin.Required = ["date", "entity_type"] := by decide

theorem Table.keys_required_userUsage :
    Table.userUsage.keys plugin.Required = ["date"] := by decide

theorem Table.keys_optional_activities :
    Table.activities.keys plugin.Optional =
      ["user_key", "actor_ip_address", "customer_id", "time", "event_name", "filters",
        "org_unit_id", "group_id_filter"] := by decide

theorem Table.keys_optional_customerUsage :
    Table.customerUsage.keys plugin.Optional = ["customer_id", "parameters"] := by decide

theorem Table.keys_optional_entityUsage :
    Table.entityUsage.keys plugin.Optional =
      ["entity_key", "customer_id", "filters", "parameters"] := by decide

theorem Table.keys_optional_userUsage :
    Table.userUsage.keys plugin.Optional =
      ["user_key", "customer_id", "org_unit_id", "filters", "parameters",
        "group_id_filter"] := by decide

theorem Option.exists_of_ne_none {α : Type} {o : Option α} (h : o ≠ none) : ∃ a, o = some a := by
  cases o with
  | none => exact absurd rfl h
  | some a => exact ⟨a, rfl⟩

/-- When the client is constructed, the required filters are supplied and
(for activities) every literal of a predicate on `time` parses, the routine of
the table builds a request; the page size, the optional parameters and the
user or entity key of that request are read off the query data. -/
theorem Table.request_ready {ι : Type} (t : Table) (env : Env ι) (d : plugin.QueryData)
    (hsvc : env.AdminReportsService = .ok ())
    (hreq : ∀ k ∈ t.keys plugin.Required, d.KeyColumnQuals k ≠ none)
    (htime : t = .activities → ∀ quals, d.Quals "time" = some quals →
      ∀ q ∈ quals, ∃ T, time.Parse q.Value = .ok T) :
    ∃ req, t.request env d = .request req ∧
      req.maxResults = (if t = .customerUsage then none else some (pageSize d.Limit)) ∧
      (∀ k ∈ t.keys plugin.Optional, k ≠ "time" → k ≠ "user_key" → k ≠ "entity_key" →
        req.param k = d.KeyColumnQuals k) ∧
      (∀ kc, t.keyColumn = some kc → req.key = some ((d.KeyColumnQuals kc).getD "all")) := by
  cases t
  · obtain ⟨app, happ⟩ := Option.exists_of_ne_none
      (hreq "application_name" (by simp [Table.keys_required_activities]))
    obtain ⟨st, en, h⟩ := activitiesRequest_eq env d app hsvc happ (htime rfl)
    refine ⟨_, by unfold Table.request; rw [h], ?_, ?_, ?_⟩
    · simp [Request.maxResults]
    · intro k hk h1 h2 h3
      simp only [Table.keys_optional_activities, List.mem_cons, List.mem_singleton] at hk
      simp only [List.not_mem_nil, or_false] at hk
      rcases hk with rfl | rfl | rfl | rfl | rfl | rfl | rfl | rfl <;>
        first | (exact absurd rfl h1) | (exact absurd rfl h2) | rfl
    · intro kc hkc
      cases hkc
      rfl
  · obtain ⟨date, hdate⟩ := Option.exists_of_ne_none
      (hreq "date" (by simp [Table.keys_required_customerUsage]))
    have h := customerUsageRequest_eq env d date hsvc hdate
    refine ⟨_, by unfold Table.request; rw [h], ?_, ?_, ?_⟩
    · simp [Request.maxResults]
    · intro k hk h1 h2 h3
      simp only [Table.keys_optional_customerUsage, List.mem_cons, List.mem_singleton] at hk
      simp only [List.not_mem_nil, or_false] at hk
      rcases hk with rfl | rfl <;> rfl
    · intro kc hkc
      cases hkc
  · obtain ⟨date, hdate⟩ := Option.exists_of_ne_none
      (hreq "date" (by simp [Table.keys_required_entityUsage]))
    obtain ⟨ty, hty⟩ := Option.exists_of_ne_none
      (hreq "entity_type" (by simp [Table.keys_required_entityUsage]))
    have h := entityUsageRequest_eq env d date ty hsvc hdate hty
    refine ⟨_, by unfold Table.request; rw [h], ?_, ?_, ?_⟩
    · simp [Request.maxResults]
    · intro k hk h1 h2 h3
      simp only [Table.keys_optional_entityUsage, List.mem_cons, List.mem_singleton] at hk
      simp only [List.not_mem_nil, or_false] at hk
      rcases hk with rfl | rfl | rfl | rfl <;>
        first | (exact absurd rfl h3) | rfl
    · intro kc hkc
      cases hkc
      rfl
  · obtain ⟨date, hdate⟩ := Option.exists_of_ne_none
      (hreq "date" (by simp [Table.keys_required_userUsage]))
    have h := userUsageRequest_eq env d date hsvc hdate
    refine ⟨_, by unfold Table.request; rw [h], ?_, ?_, ?_⟩
    · simp [Request.maxResults]
    · intro k hk h1 h2 h3
      simp only [Table.keys_optional_userUsage, List.mem_cons, List.mem_singleton] at hk
      simp only [List.not_mem_nil, or_false] at hk
      rcases hk with rfl | rfl | rfl | rfl | rfl | rfl <;>
        first | (exact absurd rfl h2) | rfl
    · intro kc hkc
      cases hkc
      rfl

/-! ## Time: lemmas -/

theorem Time.Add_Second (t : time.Time) (h0 : 0 ≤ t.nsec) (h1 : t.nsec < 1000000000) :
    t.Add time.Second = ⟨t.sec + 1, t.nsec, t.loc⟩ := by
  have e1 : Int.tdiv time.Second 1000000000 = 1 := by decide
  have e2 : Int.tmod time.Second 1000000000 = 0 := by decide
  simp only [time.Time.Add, e1, e2]
  rw [if_neg (by omega), if_neg (by omega)]
  simp

theorem Time.Add_neg_Second (t : time.Time) (h0 : 0 ≤ t.nsec) (h1 : t.nsec < 1000000000) :
    t.Add (-time.Second) = ⟨t.sec - 1, t.nsec, t.loc⟩ := by
  have e1 : Int.tdiv (-time.Second) 1000000000 = -1 := by decide
  have e2 : Int.tmod (-time.Second) 1000000000 = 0 := by decide
  simp only [time.Time.Add, e1, e2]
  rw [if_neg (by omega), if_neg (by omega)]
  simp
  rfl

/-! ## Calendar arithmetic: lemmas -/

theorem isLeap_iff (year : Int) :
    time.isLeap year = true ↔ year % 4 = 0 ∧ (year % 100 ≠ 0 ∨ year % 400 = 0) := by
  simp [time.isLeap]

theorem absYearDay_form (abs : Int) :
    ∃ D n400 n100 n4 n1 : Int, D = abs / 86400 ∧ n400 = D / 146097 ∧
      n100 = (D - 146097 * n400) / 36524 ∧
      n4 = (D - 146097 * n400 - 36524 * (n100 - n100 / 4)) / 1461 ∧
      n1 = (D - 146097 * n400 - 36524 * (n100 - n100 / 4) - 1461 * n4) / 365 ∧
      time.absYearDay abs =
        (400 * n400 + 100 * (n100 - n100 / 4) + 4 * n4 + (n1 - n1 / 4) + -292277022399,
          D - 146097 * n400 - 36524 * (n100 - n100 / 4) - 1461 * n4 - 365 * (n1 - n1 / 4)) :=
  ⟨_, _, _, _, _, rfl, rfl, rfl, rfl, rfl, rfl⟩

theorem daysSinceEpoch_form (year : Int) :
    ∃ y m1 m2 m3 : Int, y = year + 292277022399 ∧ m1 = y / 400 ∧ m2 = (y - 400 * m1) / 100 ∧
      m3 = (y - 400 * m1 - 100 * m2) / 4 ∧
      time.daysSinceEpoch year =
        146097 * m1 + 36524 * m2 + 1461 * m3 + 365 * (y - 400 * m1 - 100 * m2 - 4 * m3) :=
  ⟨_, _, _, _, rfl, rfl, rfl, rfl, rfl⟩

theorem isLeap_cycle (n400 a n4 b : Int) (ha : 0 ≤ a ∧ a ≤ 3) (h4 : 0 ≤ n4 ∧ n4 ≤ 24)
    (hb : 0 ≤ b ∧ b ≤ 3) :
    time.isLeap (400 * n400 + 100 * a + 4 * n4 + b + -292277022399) = true ↔
      b = 3 ∧ (n4 ≠ 24 ∨ a = 3) := by
  rw [isLeap_iff]
  omega

theorem absYearDay_spec (abs : Int) :
    abs / 86400 = time.daysSinceEpoch (time.absYearDay abs).1 + (time.absYearDay abs).2 ∧
      0 ≤ (time.absYearDay abs).2 ∧
      (time.absYearDay abs).2 < 365 + (if time.isLeap (time.absYearDay abs).1 then 1 else 0) := by
  obtain ⟨D, n400, n100, n4, n1, hD, h400, h100, h4, h1, h⟩ := absYearDay_form abs
  rw [h]
  simp only []
  obtain ⟨y, m1, m2, m3, hy, hm1, hm2, hm3, hd⟩ := daysSinceEpoch_form
    (400 * n400 + 100 * (n100 - n100 / 4) + 4 * n4 + (n1 - n1 / 4) + -292277022399)
  rw [hd, ← hD]
  have a1 : 0 ≤ D - 146097 * n400 ∧ D - 146097 * n400 < 146097 := by omega
  have a3 : 0 ≤ n100 - n100 / 4 ∧ n100 - n100 / 4 ≤ 3 := by omega
  have a4 : 0 ≤ D - 146097 * n400 - 36524 * (n100 - n100 / 4) ∧
      D - 146097 * n400 - 36524 * (n100 - n100 / 4) ≤ 36524 := by omega
  have a5 : 0 ≤ n4 ∧ n4 ≤ 24 := by omega
  have a7 : 0 ≤ n1 - n1 / 4 ∧ n1 - n1 / 4 ≤ 3 := by omega
  have e1 : m1 = n400 := by omega
  have e2 : m2 = n100 - n100 / 4 := by omega
  have e3 : m3 = n4 := by omega
  refine ⟨by omega, by omega, ?_⟩
  have hiff := isLeap_cycle n400 _ n4 _ a3 a5 a7
  by_cases hl : time.isLeap
      (400 * n400 + 100 * (n100 - n100 / 4) + 4 * n4 + (n1 - n1 / 4) + -292277022399) = true
  · rw [if_pos hl]
    have := hiff.mp hl
    omega
  · rw [if_neg hl]
    have : ¬ ((n1 - n1 / 4) = 3 ∧ (n4 ≠ 24 ∨ (n100 - n100 / 4) = 3)) := fun h => hl (hiff.mpr h)
    omega

theorem daysBefore_values :
    time.daysBefore 0 = 0 ∧ time.daysBefore 1 = 31 ∧ time.daysBefore 2 = 59 ∧
      time.daysBefore 3 = 90 ∧ time.daysBefore 4 = 120 ∧ time.daysBefore 5 = 151 ∧
      time.daysBefore 6 = 181 ∧ time.daysBefore 7 = 212 ∧ time.daysBefore 8 = 243 ∧
      time.daysBefore 9 = 273 ∧ time.daysBefore 10 = 304 ∧ time.daysBefore 11 = 334 ∧
      time.daysBefore 12 = 365 := by
  decide

/-- The month and day of the month that `absDate` computes from the day of the
year once the leap day is out of the way. -/
theorem month_of_day (day : Int) (h0 : 0 ≤ day) (h1 : day < 365) :
    ∃ month dom : Int,
      (if day ≥ time.daysBefore (day / 31 + 1) then
          (day / 31 + 1 + 1, day - time.daysBefore (day / 31 + 1) + 1)
        else (day / 31 + 1, day - time.daysBefore (day / 31) + 1)) = (month, dom) ∧
      1 ≤ month ∧ month ≤ 12 ∧ 1 ≤ dom ∧
      dom ≤ time.daysBefore month - time.daysBefore (month - 1) ∧
      time.daysBefore (month - 1) + (dom - 1) = day := by
  obtain ⟨v0, v1, v2, v3, v4, v5, v6, v7, v8, v9, v10, v11, v12⟩ := daysBefore_values
  obtain ⟨m, hm⟩ : ∃ m, day / 31 = m := ⟨_, rfl⟩
  rw [hm]
  have hm0 : 0 ≤ m := by omega
  have hm11 : m ≤ 11 := by omega
  interval_cases m
  all_goals norm_num only [v0, v1, v2, v3, v4, v5, v6, v7, v8, v9, v10, v11, v12]
  all_goals split_ifs with hge
  all_goals refine ⟨_, _, rfl, ?_⟩
  all_goals norm_num only [v0, v1, v2, v3, v4, v5, v6, v7, v8, v9, v10, v11, v12]
  all_goals first
    | (refine ⟨trivial, trivial, ?_, ?_, ?_⟩ <;> omega)
    | (exfalso; omega)

theorem absDate_of_day (abs year yday day : Int) (h : time.absYearDay abs = (year, yday))
    (hleapday : (time.isLeap year && decide (yday = 31 + 29 - 1)) = false)
    (hday : (if (time.isLeap year && decide (yday > 31 + 29 - 1)) = true then yday - 1
      else yday) = day) :
    time.absDate abs =
      (if day ≥ time.daysBefore (day / 31 + 1) then
          (year, day / 31 + 1 + 1, day - time.daysBefore (day / 31 + 1) + 1)
        else (year, day / 31 + 1, day - time.daysBefore (day / 31) + 1)) := by
  simp only [time.absDate, h, hleapday]
  rw [hday]
  rfl

theorem absDate_spec (abs : Int) :
    ∃ year yday month day : Int,
      time.absYearDay abs = (year, yday) ∧ time.absDate abs = (year, month, day) ∧
      1 ≤ month ∧ month ≤ 12 ∧ 1 ≤ day ∧ day ≤ time.daysIn month year ∧
      time.daysBefore (month - 1) + (if (time.isLeap year && decide (month ≥ 3)) = true
        then 1 else 0) + (day - 1) = yday ∧
      abs / 86400 = time.daysSinceEpoch year + yday := by
  obtain ⟨v0, v1, v2, v3, v4, v5, v6, v7, v8, v9, v10, v11, v12⟩ := daysBefore_values
  obtain ⟨year, yday, h⟩ : ∃ y d, time.absYearDay abs = (y, d) := ⟨_, _, rfl⟩
  have spec := absYearDay_spec abs
  rw [h] at spec
  simp only [] at spec
  obtain ⟨s1, s2, s3⟩ := spec
  cases hl : time.isLeap year
  · -- a common year
    simp only [hl] at s3
    have hform := absDate_of_day abs year yday yday h (by simp [hl]) (by simp [hl])
    obtain ⟨month, dom, he, m1, m12, d1, dle, hsum⟩ := month_of_day yday s2 (by simpa using s3)
    refine ⟨year, yday, month, dom, h, ?_, m1, m12, d1, ?_, ?_, s1⟩
    · rw [hform]
      split_ifs at he ⊢ <;> simp only [Prod.mk.injEq] at he ⊢ <;> exact ⟨trivial, he⟩
    · simp only [time.daysIn, hl]
      simpa using dle
    · rw [hl]
      simpa using hsum
  · -- a leap year
    simp only [hl] at s3
    by_cases hld : yday = 59
    · refine ⟨year, yday, 2, 29, h, ?_, by decide, by decide, by decide, ?_, ?_, s1⟩
      · simp [time.absDate, h, hl, hld]
      · simp [time.daysIn, hl]
      · simp [hl, v1]
        omega
    · by_cases hafter : yday > 59
      · have hform := absDate_of_day abs year yday (yday - 1) h
          (by rw [hl]; simpa using hld) (by rw [hl]; simp; omega)
        obtain ⟨month, dom, he, m1, m12, d1, dle, hsum⟩ := month_of_day (yday - 1)
          (by omega) (by simp at s3; omega)
        have hm3 : 3 ≤ month := by
          by_contra hc
          have : month = 1 ∨ month = 2 := by omega
          rcases this with rfl | rfl
          · norm_num [v0, v1] at dle hsum
            omega
          · norm_num [v1, v2] at dle hsum
            omega
        refine ⟨year, yday, month, dom, h, ?_, m1, m12, d1, ?_, ?_, s1⟩
        · rw [hform]
          split_ifs at he ⊢ <;> simp only [Prod.mk.injEq] at he ⊢ <;> exact ⟨trivial, he⟩
        · have : month ≠ 2 := by omega
          simp only [time.daysIn, hl]
          simpa [this] using dle
        · simp only [hl, Bool.true_and, decide_eq_true_eq]
          rw [if_pos hm3]
          omega
      · have hform := absDate_of_day abs year yday yday h
          (by rw [hl]; simpa using hld) (by rw [hl]; simp; omega)
        obtain ⟨month, dom, he, m1, m12, d1, dle, hsum⟩ := month_of_day yday s2 (by omega)
        have hm3 : month < 3 := by
          by_contra hc
          have hmm : 3 ≤ month := by omega
          have : time.daysBefore (month - 1) ≥ 59 := by
            obtain ⟨k, hk⟩ : ∃ k, month = k := ⟨_, rfl⟩
            rw [hk] at hmm m12 ⊢
            interval_cases k <;> norm_num [v2, v3, v4, v5, v6, v7, v8, v9, v10, v11]
          omega
        refine ⟨year, yday, month, dom, h, ?_, m1, m12, d1, ?_, ?_, s1⟩
        · rw [hform]
          split_ifs at he ⊢ <;> simp only [Prod.mk.injEq] at he ⊢ <;> exact ⟨trivial, he⟩
        · simp only [time.daysIn, hl]
          split_ifs
          · have : month = 2 := by simp_all
            subst this
            norm_num [v1, v2] at dle
            omega
          · exact dle
        · simp only [hl, Bool.true_and, decide_eq_true_eq]
          rw [if_neg (by omega)]
          omega

theorem absClock_spec (abs : Int) :
    ∃ hour min sec : Int, time.absClock abs = (hour, min, sec) ∧
      0 ≤ hour ∧ hour < 24 ∧ 0 ≤ min ∧ min < 60 ∧ 0 ≤ sec ∧ sec < 60 ∧
      hour * 3600 + min * 60 + sec = abs % 86400 := by
  refine ⟨_, _, _, rfl, ?_⟩
  simp only [time.secondsPerDay, time.secondsPerHour, time.secondsPerMinute]
  norm_num
  omega

theorem norm_of_range (hi lo base : Int) (h0 : 0 ≤ lo) (h1 : lo < base) :
    time.norm hi lo base = (hi, lo) := by
  unfold time.norm
  rw [if_neg (by omega)]
  simp only []
  rw [if_neg (by omega)]

theorem Date_of_valid (year month day hour min sec nsec : Int)
    (hm1 : 1 ≤ month) (hm12 : month ≤ 12) (hh0 : 0 ≤ hour) (hh : hour < 24)
    (hmi0 : 0 ≤ min) (hmi : min < 60) (hs0 : 0 ≤ sec) (hs : sec < 60)
    (hn0 : 0 ≤ nsec) (hn : nsec < 1000000000) :
    time.Date year month day hour min sec nsec =
      ⟨(time.daysSinceEpoch year + time.daysBefore (month - 1) +
          (if (time.isLeap year && decide (month ≥ 3)) = true then 1 else 0) + (day - 1)) * 86400
        + (hour * 3600 + min * 60 + sec) + (time.absoluteToInternal + time.internalToUnix),
        nsec, time.UTC⟩ := by
  have e1 := norm_of_range year (month - 1) 12 (by omega) (by omega)
  have e2 := norm_of_range sec nsec 1000000000 hn0 hn
  have e3 := norm_of_range min sec 60 hs0 hs
  have e4 := norm_of_range hour min 60 hmi0 hmi
  have e5 := norm_of_range day hour 24 hh0 hh
  unfold time.Date
  simp only [e1, e2, e3, e4, e5]
  simp only [time.secondsPerDay, time.secondsPerHour, time.secondsPerMinute, sub_add_cancel]
  congr 1
  split_ifs <;> ring

/-- Building a date from the fields of an absolute time gives that time
back. -/
theorem Date_absDate (abs nsec : Int) (hn0 : 0 ≤ nsec) (hn : nsec < 1000000000) :
    time.Date (time.absDate abs).1 (time.absDate abs).2.1 (time.absDate abs).2.2
        (time.absClock abs).1 (time.absClock abs).2.1 (time.absClock abs).2.2 nsec =
      ⟨abs + (time.absoluteToInternal + time.internalToUnix), nsec, time.UTC⟩ := by
  obtain ⟨year, yday, month, day, _, hd, m1, m12, _, _, hsum, hdays⟩ := absDate_spec abs
  obtain ⟨hour, min, sec, hc, h0, h24, mi0, mi60, s0, s60, hclock⟩ := absClock_spec abs
  rw [hd, hc]
  simp only []
  rw [Date_of_valid year month day hour min sec nsec m1 m12 h0 h24 mi0 mi60 s0 s60 hn0 hn]
  congr 1
  have : abs = abs / 86400 * 86400 + abs % 86400 := by omega
  rw [hclock]
  omega

theorem daysSinceEpoch_mono_bounds (year : Int) :
    (year < 0 →
        time.daysSinceEpoch year + 365 + (if time.isLeap year = true then 1 else 0) ≤
          106751990353566) ∧
      (10000 ≤ year → 106751990353566 + 3652425 ≤ time.daysSinceEpoch year) := by
  obtain ⟨y, m1, m2, m3, hy, hm1, hm2, hm3, hd⟩ := daysSinceEpoch_form year
  rw [hd]
  refine ⟨?_, ?_⟩
  · intro h
    by_cases hl : time.isLeap year = true
    · rw [if_pos hl]
      rw [isLeap_iff] at hl
      omega
    · rw [if_neg hl]
      omega
  · intro h
    omega

theorem year_range_of_sec (sec : Int) (h0 : -62167219200 ≤ sec) (h1 : sec < 253402300800) :
    0 ≤ (time.absYearDay (sec + (time.unixToInternal + time.internalToAbsolute))).1 ∧
      (time.absYearDay (sec + (time.unixToInternal + time.internalToAbsolute))).1 ≤ 9999 := by
  obtain ⟨s1, s2, s3⟩ := absYearDay_spec (sec + (time.unixToInternal + time.internalToAbsolute))
  generalize (time.absYearDay (sec + (time.unixToInternal + time.internalToAbsolute))).1 = year
    at s1 s3 ⊢
  generalize (time.absYearDay (sec + (time.unixToInternal + time.internalToAbsolute))).2 = yday
    at s1 s2 s3
  have hK : time.unixToInternal + time.internalToAbsolute = 9223372028715321600 := by decide
  rw [hK] at s1
  obtain ⟨b1, b3⟩ := daysSinceEpoch_mono_bounds year
  constructor
  · by_contra hc
    have := b1 (by omega)
    split_ifs at s3 this <;> omega
  · by_contra hc
    have := b3 (by omega)
    omega

/-! ## Digits: lemmas -/

theorem digitChar_cases (k : Nat) :
    digitChar k = '0' ∨ digitChar k = '1' ∨ digitChar k = '2' ∨ digitChar k = '3' ∨
      digitChar k = '4' ∨ digitChar k = '5' ∨ digitChar k = '6' ∨ digitChar k = '7' ∨
      digitChar k = '8' ∨ digitChar k = '9' := by
  unfold digitChar
  have h : k % 10 < 10 := Nat.mod_lt _ (by decide)
  generalize k % 10 = j at h
  interval_cases j <;> decide

theorem digitChar_toNat (k : Nat) : (digitChar k).toNat = 48 + k % 10 := by
  unfold digitChar
  have h : k % 10 < 10 := Nat.mod_lt _ (by decide)
  generalize k % 10 = j at h
  interval_cases j <;> decide

theorem digitChar_isDigit (k : Nat) : ('0' ≤ digitChar k) ∧ (digitChar k ≤ '9') := by
  rcases digitChar_cases k with h | h | h | h | h | h | h | h | h | h <;> rw [h] <;> decide

theorem digitChar_ne (k : Nat) :
    digitChar k ≠ '-' ∧ digitChar k ≠ '+' ∧ digitChar k ≠ '.' ∧ digitChar k ≠ ',' := by
  rcases digitChar_cases k with h | h | h | h | h | h | h | h | h | h <;> rw [h] <;> decide

theorem digitChar_of_lt (u : Nat) (h : u < 10) : Char.ofNat (48 + u) = digitChar u := by
  unfold digitChar
  rw [Nat.mod_eq_of_lt h]

theorem digitChar_mod (u : Nat) : Char.ofNat (48 + u % 10) = digitChar u := rfl

theorem digitsN_length (w u : Nat) : (digitsN w u).length = w := by
  induction w generalizing u with
  | zero => rfl
  | succ w ih => simp [digitsN, ih]

theorem digitsN_zero (w : Nat) : digitsN w 0 = List.replicate w '0' := by
  induction w with
  | zero => rfl
  | succ w ih =>
    rw [digitsN, Nat.zero_div, ih, List.replicate_succ']
    rfl

/-- The digits `utoa` produces are the significant ones among the last `w`. -/
theorem utoa_eq_digitsN (w : Nat) :
    ∀ (fuel u : Nat) (acc : List Char), 1 ≤ w → w ≤ fuel → u < 10 ^ w →
      ∃ k, 1 ≤ k ∧ k ≤ w ∧ time.utoa fuel u acc = digitsN k u ++ acc ∧
        digitsN w u = List.replicate (w - k) '0' ++ digitsN k u := by
  induction w with
  | zero => intro fuel u acc h; omega
  | succ w ih =>
    intro fuel u acc _ hfuel hu
    obtain ⟨f, rfl⟩ : ∃ f, fuel = f + 1 := ⟨fuel - 1, by omega⟩
    by_cases h10 : u ≥ 10
    · have hw : 1 ≤ w := by
        by_contra hc
        have : w = 0 := by omega
        subst this
        simp at hu
        omega
      have hu' : u / 10 < 10 ^ w := by
        rw [Nat.div_lt_iff_lt_mul (by decide)]
        rw [pow_succ] at hu
        exact hu
      obtain ⟨k, hk1, hkw, hrun, hpad⟩ := ih f (u / 10) (Char.ofNat (48 + u % 10) :: acc) hw
        (by omega) hu'
      refine ⟨k + 1, by omega, by omega, ?_, ?_⟩
      · rw [time.utoa, if_pos h10, hrun, digitsN, digitChar_mod]
        simp
      · rw [digitsN, hpad, digitsN]
        simp
    · have hlt : u < 10 := by omega
      refine ⟨1, le_refl _, by omega, ?_, ?_⟩
      · rw [time.utoa, if_neg h10, digitChar_of_lt u hlt]
        rfl
      · rw [digitsN, Nat.div_eq_of_lt hlt, digitsN_zero]
        simp [digitsN]

theorem appendInt_eq_digitsN (x : Int) (w : Nat) (h0 : 0 ≤ x) (hw1 : 1 ≤ w) (hw : w ≤ 20)
    (hx : x.natAbs < 10 ^ w) : time.appendInt x w = digitsN w x.natAbs := by
  obtain ⟨k, hk1, hkw, hrun, hpad⟩ := utoa_eq_digitsN w 20 x.natAbs [] hw1 hw hx
  unfold time.appendInt
  simp only []
  rw [if_neg (by omega), hrun, hpad]
  simp [digitsN_length]

theorem digitsN_take (k j u : Nat) : (digitsN (k + j) u).take k = digitsN k (u / 10 ^ j) := by
  induction j generalizing u with
  | zero => simp [digitsN_length]
  | succ j ih =>
    rw [← Nat.add_assoc, digitsN, List.take_append_of_le_length (by simp [digitsN_length]), ih,
      Nat.div_div_eq_div_mul, pow_succ, Nat.mul_comm]

theorem isDigit_zero (k : Nat) (rest : List Char) :
    time.isDigit (digitChar k :: rest) 0 = true := by
  have h := digitChar_isDigit k
  simp [time.isDigit, h.1, h.2]

theorem isDigit_one (c : Char) (k : Nat) (rest : List Char) :
    time.isDigit (c :: digitChar k :: rest) 1 = true := by
  have h := digitChar_isDigit k
  simp [time.isDigit, h.1, h.2]

theorem digitVal_digitChar (k : Nat) : time.digitVal (digitChar k) = ((k % 10 : Nat) : Int) := by
  unfold time.digitVal
  rw [digitChar_toNat]
  push_cast
  omega

theorem getnum_digits (a b : Nat) (rest : List Char) (fixed : Bool) :
    time.getnum (digitChar a :: digitChar b :: rest) fixed =
      some (((a % 10 * 10 + b % 10 : Nat) : Int), rest) := by
  unfold time.getnum
  rw [isDigit_zero, isDigit_one]
  simp [digitVal_digitChar]

theorem leadingInt_digit (k : Nat) (rest : List Char) (x : Nat) (hx : x ≤ 2 ^ 63 / 10)
    (hx' : x * 10 + k % 10 ≤ 2 ^ 63) :
    time.leadingInt (digitChar k :: rest) x = time.leadingInt rest (x * 10 + k % 10) := by
  have h := digitChar_isDigit k
  rw [time.leadingInt]
  have c1 : ¬ (digitChar k < '0') := not_lt.mpr h.1
  have c2 : ¬ (digitChar k > '9') := not_lt.mpr h.2
  simp only [c1, c2, decide_False, Bool.or_self, Bool.false_eq_true, if_false]
  rw [if_neg (by omega)]
  simp only [digitChar_toNat]
  rw [show 48 + k % 10 - 48 = k % 10 by omega]
  rw [if_neg (by omega)]

theorem atoi_digits4 (a b c d : Nat) :
    time.atoi [digitChar a, digitChar b, digitChar c, digitChar d] =
      some (((a % 10 * 1000 + b % 10 * 100 + c % 10 * 10 + d % 10 : Nat) : Int)) := by
  have hne := digitChar_ne a
  have ha : a % 10 < 10 := Nat.mod_lt _ (by decide)
  have hb : b % 10 < 10 := Nat.mod_lt _ (by decide)
  have hc : c % 10 < 10 := Nat.mod_lt _ (by decide)
  have hd : d % 10 < 10 := Nat.mod_lt _ (by decide)
  unfold time.atoi
  simp only [hne.1, hne.2.1, decide_False, Bool.or_self, Bool.false_eq_true, if_false]
  rw [leadingInt_digit a _ 0 (by decide) (by omega),
    leadingInt_digit b _ _ (by norm_num; omega) (by omega),
    leadingInt_digit c _ _ (by norm_num; omega) (by omega),
    leadingInt_digit d _ _ (by norm_num; omega) (by omega)]
  simp only [time.leadingInt]
  congr 1
  push_cast
  omega

theorem atoi_digits3 (a b c : Nat) :
    time.atoi [digitChar a, digitChar b, digitChar c] =
      some (((a % 10 * 100 + b % 10 * 10 + c % 10 : Nat) : Int)) := by
  have hne := digitChar_ne a
  have ha : a % 10 < 10 := Nat.mod_lt _ (by decide)
  have hb : b % 10 < 10 := Nat.mod_lt _ (by decide)
  have hc : c % 10 < 10 := Nat.mod_lt _ (by decide)
  unfold time.atoi
  simp only [hne.1, hne.2.1, decide_False, Bool.or_self, Bool.false_eq_true, if_false]
  rw [leadingInt_digit a _ 0 (by decide) (by omega),
    leadingInt_digit b _ _ (by norm_num; omega) (by omega),
    leadingInt_digit c _ _ (by norm_num; omega) (by omega)]
  simp only [time.leadingInt]
  congr 1
  push_cast
  omega

/-- Parsing twenty-four characters in the shape of the layout, with fields in
range, gives the date of the fields. -/
theorem Parse_digits (y3 y2 y1 y0 m1 m0 d1 d0 h1 h0 i1 i0 s1 s0 n2 n1 n0 : Nat)
    (hmonth : 1 ≤ m1 % 10 * 10 + m0 % 10 ∧ m1 % 10 * 10 + m0 % 10 ≤ 12)
    (hhour : h1 % 10 * 10 + h0 % 10 < 24)
    (hmin : i1 % 10 * 10 + i0 % 10 < 60)
    (hsec : s1 % 10 * 10 + s0 % 10 < 60)
    (hday : 1 ≤ d1 % 10 * 10 + d0 % 10 ∧
      ((d1 % 10 * 10 + d0 % 10 : Nat) : Int) ≤
        time.daysIn ((m1 % 10 * 10 + m0 % 10 : Nat) : Int)
          ((y3 % 10 * 1000 + y2 % 10 * 100 + y1 % 10 * 10 + y0 % 10 : Nat) : Int)) :
    time.Parse (String.mk [digitChar y3, digitChar y2, digitChar y1, digitChar y0, '-',
      digitChar m1, digitChar m0, '-', digitChar d1, digitChar d0, 'T',
      digitChar h1, digitChar h0, ':', digitChar i1, digitChar i0, ':',
      digitChar s1, digitChar s0, '.', digitChar n2, digitChar n1, digitChar n0, 'Z']) =
    .ok (time.Date ((y3 % 10 * 1000 + y2 % 10 * 100 + y1 % 10 * 10 + y0 % 10 : Nat) : Int)
      ((m1 % 10 * 10 + m0 % 10 : Nat) : Int) ((d1 % 10 * 10 + d0 % 10 : Nat) : Int)
      ((h1 % 10 * 10 + h0 % 10 : Nat) : Int) ((i1 % 10 * 10 + i0 % 10 : Nat) : Int)
      ((s1 % 10 * 10 + s0 % 10 : Nat) : Int)
      (((n2 % 10 * 100 + n1 % 10 * 10 + n0 % 10 : Nat) : Int) * 1000000)) := by
  generalize hy : ((y3 % 10 * 1000 + y2 % 10 * 100 + y1 % 10 * 10 + y0 % 10 : Nat) : Int) = year
    at hday ⊢
  generalize hmo : ((m1 % 10 * 10 + m0 % 10 : Nat) : Int) = month at hday ⊢
  generalize hdd : ((d1 % 10 * 10 + d0 % 10 : Nat) : Int) = day at hday ⊢
  generalize hho : ((h1 % 10 * 10 + h0 % 10 : Nat) : Int) = hour
  generalize hmi : ((i1 % 10 * 10 + i0 % 10 : Nat) : Int) = min
  generalize hse : ((s1 % 10 * 10 + s0 % 10 : Nat) : Int) = sec
  generalize hns : ((n2 % 10 * 100 + n1 % 10 * 10 + n0 % 10 : Nat) : Int) = ms
  have c1 : ¬ (month ≤ 0) := by omega
  have c2 : ¬ (12 < month) := by omega
  have c3 : ¬ (hour < 0) := by omega
  have c4 : ¬ (24 ≤ hour) := by omega
  have c5 : ¬ (min < 0) := by omega
  have c6 : ¬ (60 ≤ min) := by omega
  have c7 : ¬ (sec < 0) := by omega
  have c8 : ¬ (60 ≤ sec) := by omega
  have c9 : ¬ (ms < 0) := by omega
  have c10 : ¬ (day < 1) := by omega
  have c11 : ¬ (day > time.daysIn month year) := not_lt.mpr hday.2
  unfold time.Parse
  simp only [String.toList, List.length_cons, List.length_nil, List.take, List.drop,
    isDigit_zero, atoi_digits4, time.skip, getnum_digits, time.parseNanoseconds,
    time.commaOrPeriod, atoi_digits3, List.getD_cons_zero, hy, hmo, hdd, hho, hmi, hse, hns,
    c1, c2, c3, c4, c5, c6, c7, c8, c9, c10, c11, if_true, if_false, decide_True,
    decide_False, Bool.or_self, Bool.false_eq_true, Bool.not_true, Bool.or_false,
    Bool.or_true, Bool.true_or, Bool.not_false, ne_eq, not_true_eq_false, not_false_eq_true]
  norm_num

theorem appendInt_two (n : Nat) (h : n < 100) :
    time.appendInt (n : Int) 2 = [digitChar (n / 10), digitChar n] := by
  rw [appendInt_eq_digitsN _ 2 (Int.natCast_nonneg n) (by decide) (by decide)
    (by simpa using h)]
  simp [digitsN]

theorem appendInt_four (n : Nat) (h : n < 10000) :
    time.appendInt (n : Int) 4 =
      [digitChar (n / 10 / 10 / 10), digitChar (n / 10 / 10), digitChar (n / 10),
        digitChar n] := by
  rw [appendInt_eq_digitsN _ 4 (Int.natCast_nonneg n) (by decide) (by decide)
    (by simpa using h)]
  simp [digitsN]

theorem appendNano_eq (n : Nat) (h : n < 1000000000) :
    time.appendNano (n : Int) =
      ['.', digitChar (n / 1000000 / 10 / 10), digitChar (n / 1000000 / 10),
        digitChar (n / 1000000)] := by
  unfold time.appendNano
  rw [appendInt_eq_digitsN _ 9 (Int.natCast_nonneg n) (by decide) (by decide)
    (by simpa using h)]
  rw [Int.natAbs_ofNat, show 9 = 3 + 6 from rfl, digitsN_take]
  simp [digitsN]

/-- Reading back, under the same layout, what `Format` wrote gives the wall
clock of the time in its location, to the millisecond, as a time in UTC. It
holds for the wall-clock years 0 to 9999, which `Format` writes with four
digits. -/
theorem Parse_Format (t : time.Time) (hn0 : 0 ≤ t.nsec) (hn : t.nsec < 1000000000)
    (hlo : -62167219200 ≤ t.sec + t.loc.lookup t.sec)
    (hhi : t.sec + t.loc.lookup t.sec < 253402300800) :
    time.Parse t.Format =
      .ok ⟨t.sec + t.loc.lookup t.sec, t.nsec / 1000000 * 1000000, time.UTC⟩ := by
  have hK : time.unixToInternal + time.internalToAbsolute = 9223372028715321600 := by decide
  have hK' : time.absoluteToInternal + time.internalToUnix = -9223372028715321600 := by decide
  obtain ⟨year, yday, month, day, hyd, hd, m1, m12, d1, dle, hsum, hdays⟩ :=
    absDate_spec t.abs
  obtain ⟨hour, min, sec, hc, h0, h24, mi0, mi60, s0, s60, hclock⟩ := absClock_spec t.abs
  have hyr := year_range_of_sec (t.sec + t.loc.lookup t.sec) hlo hhi
  have habs : t.abs = t.sec + t.loc.lookup t.sec +
      (time.unixToInternal + time.internalToAbsolute) := rfl
  rw [← habs, hyd] at hyr
  simp only [] at hyr
  have hback := Date_absDate t.abs (t.nsec / 1000000 * 1000000) (by omega) (by omega)
  rw [hd, hc] at hback
  simp only [] at hback
  have hdaymax : day ≤ 31 := by
    obtain ⟨v0, v1, v2, v3, v4, v5, v6, v7, v8, v9, v10, v11, v12⟩ := daysBefore_values
    unfold time.daysIn at dle
    split_ifs at dle
    · omega
    · obtain ⟨k, hk⟩ : ∃ k, month = k := ⟨_, rfl⟩
      rw [hk] at m1 m12 dle
      interval_cases k <;>
        norm_num [v0, v1, v2, v3, v4, v5, v6, v7, v8, v9, v10, v11, v12] at dle <;> omega
  obtain ⟨hy0, hy9⟩ := hyr
  lift year to ℕ using hy0
  lift month to ℕ using (by omega)
  lift day to ℕ using (by omega)
  lift hour to ℕ using h0
  lift min to ℕ using mi0
  lift sec to ℕ using s0
  obtain ⟨ns, hns⟩ : ∃ ns : ℕ, t.nsec = (ns : Int) := ⟨t.nsec.toNat, by omega⟩
  have hfmt : t.Format = String.mk
      [digitChar (year / 10 / 10 / 10), digitChar (year / 10 / 10), digitChar (year / 10),
        digitChar year, '-', digitChar (month / 10), digitChar month, '-',
        digitChar (day / 10), digitChar day, 'T', digitChar (hour / 10), digitChar hour, ':',
        digitChar (min / 10), digitChar min, ':', digitChar (sec / 10), digitChar sec, '.',
        digitChar (ns / 1000000 / 10 / 10), digitChar (ns / 1000000 / 10),
        digitChar (ns / 1000000), 'Z'] := by
    unfold time.Time.Format
    simp only [hd, hc, hns]
    rw [appendInt_four year (by omega), appendInt_two month (by omega),
      appendInt_two day (by omega), appendInt_two hour (by omega),
      appendInt_two min (by omega), appendInt_two sec (by omega),
      appendNano_eq ns (by omega)]
    rfl
  have hy9' : year ≤ 9999 := by omega
  have hm' : 1 ≤ month ∧ month ≤ 12 := by omega
  have hd' : 1 ≤ day ∧ day ≤ 31 := by omega
  have hh' : hour < 24 := by omega
  have hmi' : min < 60 := by omega
  have hs' : sec < 60 := by omega
  have hns' : ns < 1000000000 := by omega
  have ey : year / 10 / 10 / 10 % 10 * 1000 + year / 10 / 10 % 10 * 100 + year / 10 % 10 * 10
      + year % 10 = year := by omega
  have em : month / 10 % 10 * 10 + month % 10 = month := by omega
  have ed : day / 10 % 10 * 10 + day % 10 = day := by omega
  have eh : hour / 10 % 10 * 10 + hour % 10 = hour := by omega
  have ei : min / 10 % 10 * 10 + min % 10 = min := by omega
  have es : sec / 10 % 10 * 10 + sec % 10 = sec := by omega
  have en : ns / 1000000 / 10 / 10 % 10 * 100 + ns / 1000000 / 10 % 10 * 10
      + ns / 1000000 % 10 = ns / 1000000 := by omega
  rw [hfmt, Parse_digits]
  · rw [ey, em, ed, eh, ei, es, en]
    have e1 : ((ns / 1000000 : Nat) : Int) * 1000000 = t.nsec / 1000000 * 1000000 := by
      rw [hns]
      push_cast
      rfl
    rw [e1, hback]
    congr 2
    rw [habs, hK, hK']
    omega
  · rw [em]
    exact hm'
  · rw [eh]
    exact hh'
  · rw [ei]
    exact hmi'
  · rw [es]
    exact hs'
  · rw [ed, em, ey]
    exact ⟨hd'.1, dle⟩

/-! ## Parsing: what a successful parse tells -/

theorem digit_toNat_range (c : Char) (h0 : '0' ≤ c) (h9 : c ≤ '9') :
    48 ≤ c.toNat ∧ c.toNat ≤ 57 := by
  rw [Char.le_def] at h0 h9
  have e0 : ('0' : Char).val = 48 := rfl
  have e9 : ('9' : Char).val = 57 := rfl
  rw [e0] at h0
  rw [e9] at h9
  rw [UInt32.le_def] at h0 h9
  unfold Char.toNat
  unfold UInt32.toNat
  exact ⟨h0, h9⟩

theorem isDigit_digitVal (s : List Char) (i : Nat) (h : time.isDigit s i = true) :
    0 ≤ time.digitVal (s.getD i '0') ∧ time.digitVal (s.getD i '0') ≤ 9 := by
  unfold time.isDigit at h
  cases hg : s[i]? with
  | none => simp [hg] at h
  | some c =>
    simp [hg] at h
    have hr := digit_toNat_range c h.1 h.2
    have : s.getD i '0' = c := by
      simp [hg]
    rw [this]
    unfold time.digitVal
    omega

theorem getnum_range (s : List Char) (fixed : Bool) (v : Int) (rest : List Char)
    (h : time.getnum s fixed = some (v, rest)) : 0 ≤ v ∧ v ≤ 99 := by
  unfold time.getnum at h
  by_cases h0 : time.isDigit s 0 = true
  · have r0 := isDigit_digitVal s 0 h0
    by_cases h1 : time.isDigit s 1 = true
    · have r1 := isDigit_digitVal s 1 h1
      simp only [h0, h1, Bool.not_true, Bool.false_eq_true, if_false, Option.some.injEq,
        Prod.mk.injEq] at h
      omega
    · simp only [h0, h1, Bool.not_true, Bool.false_eq_true, if_false, Bool.not_false,
        if_true] at h
      split_ifs at h
      simp only [Option.some.injEq, Prod.mk.injEq] at h
      omega
  · simp [h0] at h

theorem leadingInt_lt (l : List Char) :
    ∀ (x q : Nat) (rest : List Char), time.leadingInt l x = some (q, rest) →
      q < (x + 1) * 10 ^ l.length := by
  induction l with
  | nil =>
    intro x q rest h
    simp only [time.leadingInt, Option.some.injEq, Prod.mk.injEq] at h
    simp
    omega
  | cons c l ih =>
    intro x q rest h
    rw [time.leadingInt] at h
    have hpos : 0 < 10 ^ l.length := pow_pos (by decide) _
    by_cases hc : (decide (c < '0') || decide (c > '9')) = true
    · rw [if_pos hc] at h
      simp only [Option.some.injEq, Prod.mk.injEq] at h
      rw [List.length_cons, pow_succ]
      have : (x + 1) * 1 ≤ (x + 1) * (10 ^ l.length * 10) :=
        Nat.mul_le_mul_left _ (by omega)
      omega
    · rw [if_neg hc] at h
      simp only [Bool.or_eq_true, decide_eq_true_eq, not_or, not_lt] at hc
      have hr := digit_toNat_range c hc.1 hc.2
      simp only [] at h
      split_ifs at h
      have := ih _ q rest h
      rw [List.length_cons, pow_succ]
      have h2 : (x * 10 + (c.toNat - 48) + 1) * 10 ^ l.length ≤
          ((x + 1) * 10) * 10 ^ l.length := Nat.mul_le_mul_right _ (by omega)
      calc q < (x * 10 + (c.toNat - 48) + 1) * 10 ^ l.length := this
        _ ≤ ((x + 1) * 10) * 10 ^ l.length := h2
        _ = (x + 1) * (10 ^ l.length * 10) := by ring

theorem atoi_bounds (l : List Char) (v : Int) (h : time.atoi l = some v) :
    -(10 ^ l.length : Int) < v ∧ v < (10 ^ l.length : Int) ∧
      (∀ c rest, l = c :: rest → c ≠ '-' → 0 ≤ v) := by
  unfold time.atoi at h
  simp only [] at h
  split at h
  · rename_i q hq
    have hlt := leadingInt_lt _ 0 q [] hq
    have hlen : (match l with
        | c :: rest => if (decide (c = '-') || decide (c = '+')) = true then rest else l
        | [] => l).length ≤ l.length := by
      cases l with
      | nil => simp
      | cons c rest =>
        simp only []
        split_ifs <;> simp
    have hpow : 10 ^ (match l with
        | c :: rest => if (decide (c = '-') || decide (c = '+')) = true then rest else l
        | [] => l).length ≤ 10 ^ l.length := Nat.pow_le_pow_right (by decide) hlen
    have hq' : (q : Int) < (10 ^ l.length : Int) := by
      have : q < 10 ^ l.length := lt_of_lt_of_le (by simpa using hlt) hpow
      exact_mod_cast this
    simp only [Option.some.injEq] at h
    refine ⟨?_, ?_, ?_⟩
    · split_ifs at h <;> omega
    · split_ifs at h <;> omega
    · intro c rest hl hne
      subst hl
      simp only [decide_eq_true_eq, hne] at h
      simp only [Bool.false_eq_true, if_false] at h
      omega
  · cases h

theorem parseNanoseconds_ok (value : List Char) (nsec : Int)
    (h : time.parseNanoseconds value = some (nsec, false)) :
    ∃ ms : Int, nsec = ms * 1000000 ∧ 0 ≤ ms ∧ ms ≤ 999 := by
  unfold time.parseNanoseconds at h
  split_ifs at h
  split at h
  · cases h
  · rename_i ns hns
    have hb := atoi_bounds _ ns hns
    have hlen : (List.take 3 (List.drop 1 value)).length ≤ 3 := by simp
    have hpow : (10 : Int) ^ (List.take 3 (List.drop 1 value)).length ≤ 10 ^ 3 :=
      pow_le_pow_right₀ (by decide) hlen
    split_ifs at h with hneg
    · simp at h
    · simp only [Option.some.injEq, Prod.mk.injEq, and_true] at h
      exact ⟨ns, h.symm, by omega, by omega⟩

/-- A successful parse is the date of seven fields, each in its range. -/
theorem Parse_ok_fields (s : String) (T : time.Time) (h : time.Parse s = .ok T) :
    ∃ year month day hour min sec ms : Int,
      T = time.Date year month day hour min sec (ms * 1000000) ∧
      0 ≤ year ∧ year ≤ 9999 ∧ 1 ≤ month ∧ month ≤ 12 ∧
      1 ≤ day ∧ day ≤ time.daysIn month year ∧ 0 ≤ hour ∧ hour < 24 ∧
      0 ≤ min ∧ min < 60 ∧ 0 ≤ sec ∧ sec < 60 ∧ 0 ≤ ms ∧ ms ≤ 999 := by
  unfold time.Parse at h
  dsimp only at h
  repeat' split at h
  all_goals first
    | (cases h; done)
    | skip
  rename_i hlen _ year hyear _ v1 hs1 _ month r1 hmonth hmr _ v2 hs2 _ day r2 hday _ v3 hs3 _
    hour r3 hhour hhr _ v4 hs4 _ min r4 hmin hminr _ v5 hs5 _ sec r5 hsec hsecr hfl _ nsec
    hnsec _ v6 hs6 hempty hdayr
  obtain ⟨ms, hms, ms0, ms999⟩ := parseNanoseconds_ok _ _ hnsec
  subst hms
  simp only [Bool.or_eq_true, decide_eq_true_eq, not_or, not_le, not_lt, Bool.not_eq_true',
    Bool.not_eq_false] at hlen hmr hhr hminr hsecr hdayr
  have rm := getnum_range _ _ _ _ hmonth
  have rd := getnum_range _ _ _ _ hday
  have rh := getnum_range _ _ _ _ hhour
  have rmi := getnum_range _ _ _ _ hmin
  have rs := getnum_range _ _ _ _ hsec
  have hy := atoi_bounds _ year hyear
  have hylen : (List.take 4 s.toList).length ≤ 4 := by simp
  have hpow : (10 : Int) ^ (List.take 4 s.toList).length ≤ 10 ^ 4 :=
    pow_le_pow_right₀ (by decide) hylen
  have hy0 : 0 ≤ year := by
    cases hl : s.toList with
    | nil =>
      have h4 := hlen.1
      rw [hl] at h4
      simp at h4
    | cons c rest =>
      rw [hl] at hlen
      have hd : time.isDigit (c :: rest) 0 = true := hlen.2
      simp [time.isDigit] at hd
      apply hy.2.2 c (List.take 3 rest) (by rw [hl]; rfl)
      intro hc
      rw [hc] at hd
      exact absurd hd.1 (by decide)
  exact ⟨year, month, day, hour, min, sec, ms, (Except.ok.inj h).symm, hy0, by omega, by omega,
    by omega, by omega, by omega, by omega, by omega, by omega, by omega, by omega, by omega,
    ms0, ms999⟩

theorem daysSinceEpoch_bounds (year : Int) (h0 : 0 ≤ year) (h1 : year ≤ 9999) :
    106751990353566 ≤ time.daysSinceEpoch year ∧
      time.daysSinceEpoch year + 365 + (if time.isLeap year = true then 1 else 0) ≤
        106751990353566 + 3652425 := by
  obtain ⟨y, m1, m2, m3, hy, hm1, hm2, hm3, hd⟩ := daysSinceEpoch_form year
  rw [hd]
  refine ⟨by omega, ?_⟩
  by_cases hl : time.isLeap year = true
  · rw [if_pos hl]
    rw [isLeap_iff] at hl
    omega
  · rw [if_neg hl]
    rw [isLeap_iff] at hl
    by_cases h4 : year % 4 = 0
    · have h100 : year % 100 = 0 ∧ year % 400 ≠ 0 := by
        by_contra hc
        apply hl
        refine ⟨h4, ?_⟩
        omega
      omega
    · omega

theorem dayOfYear_range (year month day : Int) (hm1 : 1 ≤ month) (hm12 : month ≤ 12)
    (hd1 : 1 ≤ day) (hd : day ≤ time.daysIn month year) :
    0 ≤ time.daysBefore (month - 1) +
        (if (time.isLeap year && decide (month ≥ 3)) = true then 1 else 0) + (day - 1) ∧
      time.daysBefore (month - 1) +
        (if (time.isLeap year && decide (month ≥ 3)) = true then 1 else 0) + (day - 1) <
        365 + (if time.isLeap year = true then 1 else 0) := by
  obtain ⟨v0, v1, v2, v3, v4, v5, v6, v7, v8, v9, v10, v11, v12⟩ := daysBefore_values
  unfold time.daysIn at hd
  obtain ⟨k, hk⟩ : ∃ k, month = k := ⟨_, rfl⟩
  rw [hk] at hm1 hm12 hd ⊢
  cases hl : time.isLeap year <;> rw [hl] at hd <;>
    interval_cases k <;>
    norm_num [v0, v1, v2, v3, v4, v5, v6, v7, v8, v9, v10, v11, v12] at hd ⊢ <;>
    omega

/-- A successfully parsed time is in UTC, in the years 0 to 9999, with whole
milliseconds. -/
theorem Parse_ok_range (s : String) (T : time.Time) (h : time.Parse s = .ok T) :
    T.loc = time.UTC ∧ 0 ≤ T.nsec ∧ T.nsec < 1000000000 ∧ T.nsec % 1000000 = 0 ∧
      -62167219200 ≤ T.sec ∧ T.sec < 253402300800 := by
  obtain ⟨year, month, day, hour, min, sec, ms, rfl, y0, y9, m1, m12, d1, dle, h0, h24, mi0,
    mi60, s0, s60, ms0, ms999⟩ := Parse_ok_fields s T h
  rw [Date_of_valid year month day hour min sec (ms * 1000000) m1 m12 h0 h24 mi0 mi60 s0 s60
    (by omega) (by omega)]
  have hK' : time.absoluteToInternal + time.internalToUnix = -9223372028715321600 := by decide
  obtain ⟨b0, b1⟩ := daysSinceEpoch_bounds year y0 y9
  obtain ⟨r0, r1⟩ := dayOfYear_range year month day m1 m12 d1 dle
  simp only [hK']
  refine ⟨trivial, by omega, by omega, by omega, ?_, ?_⟩
  · omega
  · omega

/-- Reading back what `Format` wrote for a time in UTC with whole milliseconds,
in the years 0 to 9999, gives the time itself. -/
theorem Parse_Format_UTC (t : time.Time) (hloc : t.loc = time.UTC) (hn0 : 0 ≤ t.nsec)
    (hn : t.nsec < 1000000000) (hms : t.nsec % 1000000 = 0)
    (hlo : -62167219200 ≤ t.sec) (hhi : t.sec < 253402300800) :
    time.Parse t.Format = .ok t := by
  have hl : t.loc.lookup t.sec = 0 := by
    rw [hloc]
    rfl
  have h := Parse_Format t hn0 hn (by rw [hl]; omega) (by rw [hl]; omega)
  rw [h, hl]
  have e1 : t.sec + 0 = t.sec := add_zero _
  have e2 : t.nsec / 1000000 * 1000000 = t.nsec := by omega
  rw [e1, e2, ← hloc]

/-! ## From the request built to the requests sent -/

theorem Request.PageToken_PageToken (c : Request) (a b : String) :
    (c.PageToken a).PageToken b = c.PageToken b := by
  cases c <;> rfl

/-- Every request `Pages` sends is the call it was started with, up to the
page token. -/
theorem Pages_fetches {ι : Type} (env : Env ι) :
    ∀ (fuel : Nat) (c : Request) (fetches : List Request) (rows : List ι) (out : Outcome ι),
      Pages env fuel c fetches rows = some out →
      ∀ r ∈ out.fetches, r ∈ fetches ∨ r = c ∨ ∃ tok, r = c.PageToken tok := by
  intro fuel
  induction fuel with
  | zero => intro c fetches rows out h; cases h
  | succ fuel ih =>
    intro c fetches rows out h r hr
    rw [Pages] at h
    cases hdo : env.Do fetches.length with
    | error err =>
      rw [hdo] at h
      simp only [Option.some.injEq] at h
      subst h
      simp only [List.mem_append, List.mem_singleton] at hr
      rcases hr with hr | hr
      · exact Or.inl hr
      · exact Or.inr (Or.inl hr)
    | ok x =>
      rw [hdo] at h
      simp only [] at h
      split_ifs at h with htok
      · simp only [Option.some.injEq] at h
        subst h
        simp only [List.mem_append, List.mem_singleton] at hr
        rcases hr with hr | hr
        · exact Or.inl hr
        · exact Or.inr (Or.inl hr)
      · rcases ih _ _ _ out h r hr with h1 | h1 | ⟨tok, h1⟩
        · simp only [List.mem_append, List.mem_singleton] at h1
          rcases h1 with h1 | h1
          · exact Or.inl h1
          · exact Or.inr (Or.inl h1)
        · exact Or.inr (Or.inr ⟨_, h1⟩)
        · rw [Request.PageToken_PageToken] at h1
          exact Or.inr (Or.inr ⟨tok, h1⟩)

/-- Every request a listing routine sends is the request it built, up to the
page token. -/
theorem Table.Hydrate_fetches {ι : Type} (t : Table) (env : Env ι) (d : plugin.QueryData)
    (fuel : Nat) (out : Outcome ι) (h : t.Hydrate env d fuel = some out) :
    ∀ r ∈ out.fetches, ∃ req, t.request env d = .request req ∧
      (r = req ∨ ∃ tok, r = req.PageToken tok) := by
  intro r hr
  rw [Table.Hydrate_eq] at h
  cases hreq : t.request env d with
  | returned err =>
    rw [hreq] at h
    simp only [Option.some.injEq] at h
    subst h
    simp at hr
  | request req =>
    rw [hreq] at h
    rcases Pages_fetches env fuel req [] [] out h r hr with h1 | h1 | h1
    · simp at h1
    · exact ⟨req, rfl, Or.inl h1⟩
    · exact ⟨req, rfl, Or.inr h1⟩

/-! ## The layout on concrete literals -/

/-- The bound one second after or before a literal, at a minute, a day, a
month, a leap-day and a year boundary; and at the two ends of the four-digit
years, where `Format` writes a five-digit year and a negative year. -/
theorem bounds_across_boundaries :
    ((time.Parse "2022-09-25T08:26:59.245Z").toOption.map
        fun T => (T.Add time.Second).Format) = some "2022-09-25T08:27:00.245Z" ∧
    ((time.Parse "2022-09-25T23:59:59.000Z").toOption.map
        fun T => (T.Add time.Second).Format) = some "2022-09-26T00:00:00.000Z" ∧
    ((time.Parse "2022-09-30T23:59:59.000Z").toOption.map
        fun T => (T.Add time.Second).Format) = some "2022-10-01T00:00:00.000Z" ∧
    ((time.Parse "2024-02-28T23:59:59.000Z").toOption.map
        fun T => (T.Add time.Second).Format) = some "2024-02-29T00:00:00.000Z" ∧
    ((time.Parse "2023-02-28T23:59:59.000Z").toOption.map
        fun T => (T.Add time.Second).Format) = some "2023-03-01T00:00:00.000Z" ∧
    ((time.Parse "2022-12-31T23:59:59.999Z").toOption.map
        fun T => (T.Add time.Second).Format) = some "2023-01-01T00:00:00.999Z" ∧
    ((time.Parse "2024-03-01T00:00:00.000Z").toOption.map
        fun T => (T.Add (-1 * time.Second)).Format) = some "2024-02-29T23:59:59.000Z" ∧
    ((time.Parse "2023-01-01T00:00:00.000Z").toOption.map
        fun T => (T.Add (-1 * time.Second)).Format) = some "2022-12-31T23:59:59.000Z" ∧
    ((time.Parse "9999-12-31T23:59:59.000Z").toOption.map
        fun T => (T.Add time.Second).Format) = some "10000-01-01T00:00:00.000Z" ∧
    ((time.Parse "0000-01-01T00:00:00.000Z").toOption.map
        fun T => (T.Add (-1 * time.Second)).Format) = some "-0001-12-31T23:59:59.000Z" := by
  decide

/-- Literals that are not written the way `Format` writes them and that
`Parse` accepts all the same: an hour of one digit, a comma before the
milliseconds, a sign in the milliseconds. Each parses to the instant of
`2022-09-25T08:26:32.045Z`. -/
theorem Parse_accepts_variants :
    ((time.Parse "2022-09-25T08:26:32.045Z").toOption.map time.Time.Format) =
        some "2022-09-25T08:26:32.045Z" ∧
    ((time.Parse "2022-09-25T8:26:32.045Z").toOption.map time.Time.Format) =
        some "2022-09-25T08:26:32.045Z" ∧
    ((time.Parse "2022-09-25T08:26:32,045Z").toOption.map time.Time.Format) =
        some "2022-09-25T08:26:32.045Z" ∧
    ((time.Parse "2022-09-25T08:26:32.+45Z").toOption.map time.Time.Format) =
        some "2022-09-25T08:26:32.045Z" := by
  decide

/-- Literals that `Parse` rejects: milliseconds of two digits, a missing `Z`,
a space for the `T`, the thirtieth of February, an hour of 24, text after the
`Z`, the empty string. -/
theorem Parse_rejects :
    (time.Parse "2024-03-01T00:00:00.00Z").toOption.isNone = true ∧
    (time.Parse "2024-03-01T00:00:00.000").toOption.isNone = true ∧
    (time.Parse "2024-03-01 00:00:00.000Z").toOption.isNone = true ∧
    (time.Parse "2024-02-30T00:00:00.000Z").toOption.isNone = true ∧
    (time.Parse "2024-03-01T24:00:00.000Z").toOption.isNone = true ∧
    (time.Parse "2024-03-01T00:00:00.000Z+09:00").toOption.isNone = true ∧
    (time.Parse "").toOption.isNone = true := by
  decide

/-! ## The net effect of the predicates on `time`: lemmas -/

theorem timeQuals_append (a b : List plugin.Qual) (resp : ActivitiesListCall) :
    timeQuals (a ++ b) resp =
      match timeQuals a resp with
      | .ok r => timeQuals b r
      | .error err => .error err := by
  induction a generalizing resp with
  | nil => rfl
  | cons q a ih =>
    simp only [List.cons_append, timeQuals]
    cases time.Parse q.Value with
    | error err => rfl
    | ok T => exact ih _

theorem lastStartBound_append_singleton (quals : List plugin.Qual) (q : plugin.Qual) :
    lastStartBound (quals ++ [q]) =
      if setsStartTime q = true then startBoundOf q else lastStartBound quals := by
  unfold lastStartBound
  by_cases h : setsStartTime q = true
  · simp [List.filter_append, h, List.getLast?_append]
  · simp [List.filter_append, h]

theorem lastEndBound_append_singleton (quals : List plugin.Qual) (q : plugin.Qual) :
    lastEndBound (quals ++ [q]) =
      if setsEndTime q = true then endBoundOf q else lastEndBound quals := by
  unfold lastEndBound
  by_cases h : setsEndTime q = true
  · simp [List.filter_append, h, List.getLast?_append]
  · simp [List.filter_append, h]

/-- One well-formed predicate on its own: the start bound is replaced when the
operator is `>`, `>=` or `=`, the end bound when it is `<`, `<=` or `=`, and
each is left alone otherwise. -/
theorem timeQuals_singleton (q : plugin.Qual) (resp : ActivitiesListCall) (T : time.Time)
    (hT : time.Parse q.Value = .ok T) :
    timeQuals [q] resp = .ok
      { resp with
        startTime := if setsStartTime q = true then startBoundOf q else resp.startTime
        endTime := if setsEndTime q = true then endBoundOf q else resp.endTime } := by
  have e1 : -1 * time.Second = -time.Second := by decide
  have e2 : time.Second * 1 = time.Second := by decide
  simp only [timeQuals, hT, startBoundOf, endBoundOf, setsStartTime, setsEndTime, e1, e2]
  cases resp
  by_cases h1 : q.Operator = ">"
  · simp [h1, ActivitiesListCall.StartTime]
  by_cases h2 : q.Operator = ">="
  · simp [h2, ActivitiesListCall.StartTime]
  by_cases h3 : q.Operator = "="
  · simp [h3, ActivitiesListCall.StartTime, ActivitiesListCall.EndTime]
  by_cases h4 : q.Operator = "<="
  · simp [h4, ActivitiesListCall.EndTime]
  by_cases h5 : q.Operator = "<"
  · simp [h5, ActivitiesListCall.EndTime]
  simp [h1, h2, h3, h4, h5]

/-- The predicates are applied in list order: after a list of well-formed
predicates the start bound is the one of the last predicate that sets it, the
bound before the list if there is none, and likewise the end bound. -/
theorem timeQuals_net (quals : List plugin.Qual)
    (hwf : ∀ q ∈ quals, ∃ T, time.Parse q.Value = .ok T) (resp : ActivitiesListCall) :
    timeQuals quals resp = .ok
      { resp with
        startTime :=
          if (quals.filter setsStartTime) = [] then resp.startTime else lastStartBound quals
        endTime :=
          if (quals.filter setsEndTime) = [] then resp.endTime else lastEndBound quals } := by
  induction quals using List.reverseRecOn with
  | nil => rfl
  | append_singleton quals q ih =>
    obtain ⟨T, hT⟩ := hwf q (by simp)
    rw [timeQuals_append, ih (fun q' hq' => hwf q' (by simp [hq']))]
    simp only []
    rw [timeQuals_singleton q _ T hT,
      lastStartBound_append_singleton, lastEndBound_append_singleton]
    by_cases h1 : setsStartTime q = true <;> by_cases h2 : setsEndTime q = true <;>
      simp [List.filter_append, h1, h2]

/-! ## Calendar arithmetic: from the fields to the day and back -/

/-- The count of days before a year, from the place of the year in its cycles
of 400, 100 and 4 years. -/
theorem daysSinceEpoch_cycles (year : Int) :
    ∃ m1 m2 m3 r : Int, year = 400 * m1 + 100 * m2 + 4 * m3 + r + -292277022399 ∧
      0 ≤ m2 ∧ m2 ≤ 3 ∧ 0 ≤ m3 ∧ m3 ≤ 24 ∧ 0 ≤ r ∧ r ≤ 3 ∧
      time.daysSinceEpoch year = 146097 * m1 + 36524 * m2 + 1461 * m3 + 365 * r := by
  obtain ⟨y, m1, m2, m3, hy, hm1, hm2, hm3, hd⟩ := daysSinceEpoch_form year
  have r1 : 0 ≤ y - 400 * m1 ∧ y - 400 * m1 < 400 := by omega
  have r2 : 0 ≤ y - 400 * m1 - 100 * m2 ∧ y - 400 * m1 - 100 * m2 < 100 := by omega
  have r3 : 0 ≤ y - 400 * m1 - 100 * m2 - 4 * m3 ∧ y - 400 * m1 - 100 * m2 - 4 * m3 < 4 := by
    omega
  clear hm1 hm2 hm3
  exact ⟨m1, m2, m3, y - 400 * m1 - 100 * m2 - 4 * m3, by omega, by omega, by omega, by omega,
    by omega, by omega, by omega, hd⟩

theorem daysSinceEpoch_succ (year : Int) :
    time.daysSinceEpoch (year + 1) =
      time.daysSinceEpoch year + 365 + (if time.isLeap year = true then 1 else 0) := by
  obtain ⟨m1, m2, m3, r, hy, a0, a3, b0, b24, c0, c3, hd⟩ := daysSinceEpoch_cycles year
  obtain ⟨m1', m2', m3', r', hy', a0', a3', b0', b24', c0', c3', hd'⟩ :=
    daysSinceEpoch_cycles (year + 1)
  have hleap := isLeap_cycle m1 m2 m3 r ⟨a0, a3⟩ ⟨b0, b24⟩ ⟨c0, c3⟩
  rw [← hy] at hleap
  rw [hd, hd']
  clear hd hd'
  by_cases hl : time.isLeap year = true
  · rw [if_pos hl]
    have := hleap.mp hl
    omega
  · rw [if_neg hl]
    have : ¬ (r = 3 ∧ (m3 ≠ 24 ∨ m2 = 3)) := fun h => hl (hleap.mpr h)
    omega

theorem daysSinceEpoch_lt (year : Int) (n : Nat) :
    time.daysSinceEpoch year + 365 + (if time.isLeap year = true then 1 else 0) ≤
      time.daysSinceEpoch (year + 1 + n) := by
  induction n with
  | zero =>
    simp only [Nat.cast_zero, add_zero]
    rw [daysSinceEpoch_succ]
  | succ n ih =>
    have h := daysSinceEpoch_succ (year + 1 + n)
    have e : year + 1 + ((n + 1 : Nat) : Int) = year + 1 + n + 1 := by push_cast; ring
    rw [e, h]
    split_ifs at ih h ⊢ <;> omega

/-- A day is the day `yday` of one year only. -/
theorem daysSinceEpoch_unique (y y' d d' : Int)
    (hd0 : 0 ≤ d) (hd : d < 365 + (if time.isLeap y = true then 1 else 0))
    (hd0' : 0 ≤ d') (hd' : d' < 365 + (if time.isLeap y' = true then 1 else 0))
    (h : time.daysSinceEpoch y + d = time.daysSinceEpoch y' + d') : y = y' ∧ d = d' := by
  rcases lt_trichotomy y y' with hlt | rfl | hgt
  · obtain ⟨n, hn⟩ : ∃ n : Nat, y' = y + 1 + n := ⟨(y' - y - 1).toNat, by omega⟩
    have := daysSinceEpoch_lt y n
    rw [← hn] at this
    omega
  · exact ⟨rfl, by omega⟩
  · obtain ⟨n, hn⟩ : ∃ n : Nat, y = y' + 1 + n := ⟨(y - y' - 1).toNat, by omega⟩
    have := daysSinceEpoch_lt y' n
    rw [← hn] at this
    omega

theorem dayOfYear_step (year m : Int) (hm1 : 1 ≤ m) (hm11 : m ≤ 11) :
    1 ≤ time.daysIn m year ∧
    time.daysBefore (m - 1) +
        (if (time.isLeap year && decide (m ≥ 3)) = true then 1 else 0) + time.daysIn m year =
      time.daysBefore (m + 1 - 1) +
        (if (time.isLeap year && decide (m + 1 ≥ 3)) = true then 1 else 0) := by
  obtain ⟨v0, v1, v2, v3, v4, v5, v6, v7, v8, v9, v10, v11, v12⟩ := daysBefore_values
  unfold time.daysIn
  obtain ⟨k, hk⟩ : ∃ k, m = k := ⟨_, rfl⟩
  rw [hk] at hm1 hm11 ⊢
  cases hl : time.isLeap year <;>
    interval_cases k <;>
    norm_num [v0, v1, v2, v3, v4, v5, v6, v7, v8, v9, v10, v11, v12]

theorem dayOfYear_lt (year m : Int) (n : Nat) (hm1 : 1 ≤ m) (hm12 : m + 1 + n ≤ 12) :
    time.daysBefore (m - 1) +
        (if (time.isLeap year && decide (m ≥ 3)) = true then 1 else 0) + time.daysIn m year ≤
      time.daysBefore (m + 1 + n - 1) +
        (if (time.isLeap year && decide (m + 1 + n ≥ 3)) = true then 1 else 0) := by
  induction n with
  | zero =>
    have h := (dayOfYear_step year m hm1 (by omega)).2
    simp only [Nat.cast_zero, add_zero]
    omega
  | succ n ih =>
    have h := dayOfYear_step year (m + 1 + n) (by omega) (by push_cast at hm12; omega)
    have e : m + 1 + ((n + 1 : Nat) : Int) = m + 1 + n + 1 := by push_cast; ring
    rw [e]
    have ih' := ih (by push_cast at hm12; omega)
    omega

/-- A day of the year is the day `day` of one month only. -/
theorem dayOfYear_unique (year m d m' d' : Int)
    (hm1 : 1 ≤ m) (hm12 : m ≤ 12) (hd1 : 1 ≤ d) (hd : d ≤ time.daysIn m year)
    (hm1' : 1 ≤ m') (hm12' : m' ≤ 12) (hd1' : 1 ≤ d') (hd' : d' ≤ time.daysIn m' year)
    (h : time.daysBefore (m - 1) +
        (if (time.isLeap year && decide (m ≥ 3)) = true then 1 else 0) + (d - 1) =
      time.daysBefore (m' - 1) +
        (if (time.isLeap year && decide (m' ≥ 3)) = true then 1 else 0) + (d' - 1)) :
    m = m' ∧ d = d' := by
  rcases lt_trichotomy m m' with hlt | rfl | hgt
  · obtain ⟨n, hn⟩ : ∃ n : Nat, m' = m + 1 + n := ⟨(m' - m - 1).toNat, by omega⟩
    have := dayOfYear_lt year m n hm1 (by omega)
    rw [← hn] at this
    omega
  · exact ⟨rfl, by omega⟩
  · obtain ⟨n, hn⟩ : ∃ n : Nat, m = m' + 1 + n := ⟨(m - m' - 1).toNat, by omega⟩
    have := dayOfYear_lt year m' n hm1' (by omega)
    rw [← hn] at this
    omega

/-- The date of the absolute time built from a valid year, month and day and a
time of day is that year, month and day. -/
theorem absDate_of_fields (year month day clock : Int)
    (hm1 : 1 ≤ month) (hm12 : month ≤ 12) (hd1 : 1 ≤ day) (hd : day ≤ time.daysIn month year)
    (hc0 : 0 ≤ clock) (hc : clock < 86400) :
    time.absDate ((time.daysSinceEpoch year + time.daysBefore (month - 1) +
        (if (time.isLeap year && decide (month ≥ 3)) = true then 1 else 0) + (day - 1)) * 86400
        + clock) = (year, month, day) := by
  obtain ⟨year', yday', month', day', hyd, hdate, m1, m12, d1, dle, hsum, hdays⟩ :=
    absDate_spec ((time.daysSinceEpoch year + time.daysBefore (month - 1) +
        (if (time.isLeap year && decide (month ≥ 3)) = true then 1 else 0) + (day - 1)) * 86400
        + clock)
  obtain ⟨r0, r1⟩ := dayOfYear_range year month day hm1 hm12 hd1 hd
  obtain ⟨r0', r1'⟩ := dayOfYear_range year' month' day' m1 m12 d1 dle
  rw [hsum] at r0' r1'
  have hdiv : ((time.daysSinceEpoch year + time.daysBefore (month - 1) +
        (if (time.isLeap year && decide (month ≥ 3)) = true then 1 else 0) + (day - 1)) * 86400
        + clock) / 86400 = time.daysSinceEpoch year + (time.daysBefore (month - 1) +
        (if (time.isLeap year && decide (month ≥ 3)) = true then 1 else 0) + (day - 1)) := by
    omega
  rw [hdiv] at hdays
  obtain ⟨ey, ed⟩ := daysSinceEpoch_unique year year' _ yday' r0 r1 r0' r1' hdays
  subst ey
  rw [← hsum] at ed
  obtain ⟨em, edd⟩ := dayOfYear_unique year month day month' day' hm1 hm12 hd1 hd m1 m12 d1 dle ed
  rw [hdate, em, edd]

/-- The time of day of the absolute time built from a day and an hour, minute
and second is that hour, minute and second. -/
theorem absClock_of_fields (days hour min sec : Int)
    (hh0 : 0 ≤ hour) (hh : hour < 24) (hmi0 : 0 ≤ min) (hmi : min < 60)
    (hs0 : 0 ≤ sec) (hs : sec < 60) :
    time.absClock (days * 86400 + (hour * 3600 + min * 60 + sec)) = (hour, min, sec) := by
  obtain ⟨hour', min', sec', hc, h0, h24, mi0, mi60, s0, s60, hclock⟩ :=
    absClock_spec (days * 86400 + (hour * 3600 + min * 60 + sec))
  rw [hc]
  have : (days * 86400 + (hour * 3600 + min * 60 + sec)) % 86400 =
      hour * 3600 + min * 60 + sec := by omega
  rw [this] at hclock
  have e1 : hour' = hour := by omega
  have e2 : min' = min := by omega
  have e3 : sec' = sec := by omega
  rw [e1, e2, e3]

/-! ## Formatting the date of given fields -/

theorem digitChar_congr (a b : Nat) (h : a % 10 = b % 10) : digitChar a = digitChar b := by
  unfold digitChar
  rw [h]

theorem Time.abs_UTC (x nsec : Int) :
    (⟨x + (time.absoluteToInternal + time.internalToUnix), nsec, time.UTC⟩ : time.Time).abs =
      x := by
  have hK : time.absoluteToInternal + time.internalToUnix +
      (time.unixToInternal + time.internalToAbsolute) = 0 := by decide
  simp only [time.Time.abs, time.UTC]
  omega

theorem Format_of_fields (t : time.Time) (year month day hour min sec : Int)
    (hd : time.absDate t.abs = (year, month, day))
    (hc : time.absClock t.abs = (hour, min, sec)) :
    t.Format =
      String.mk (time.appendInt year 4 ++ '-' :: time.appendInt month 2 ++
        '-' :: time.appendInt day 2 ++ 'T' :: time.appendInt hour 2 ++
        ':' :: time.appendInt min 2 ++ ':' :: time.appendInt sec 2 ++
        time.appendNano t.nsec ++ ['Z']) := by
  unfold time.Time.Format
  simp only [hd, hc]

/-- The rendering of the date of valid fields is the digits of the fields in
the shape of the layout. -/
theorem Format_Date (year month day hour min sec ms : Nat)
    (hy : year ≤ 9999) (hm1 : 1 ≤ month) (hm12 : month ≤ 12) (hd1 : 1 ≤ day)
    (hd : (day : Int) ≤ time.daysIn month year) (hh : hour < 24) (hmi : min < 60)
    (hs : sec < 60) (hms : ms ≤ 999) :
    (time.Date year month day hour min sec ((ms : Int) * 1000000)).Format =
      String.mk [digitChar (year / 1000), digitChar (year / 100), digitChar (year / 10),
        digitChar year, '-', digitChar (month / 10), digitChar month, '-',
        digitChar (day / 10), digitChar day, 'T', digitChar (hour / 10), digitChar hour, ':',
        digitChar (min / 10), digitChar min, ':', digitChar (sec / 10), digitChar sec, '.',
        digitChar (ms / 100), digitChar (ms / 10), digitChar ms, 'Z'] := by
  have hday31 : day ≤ 31 := by
    obtain ⟨v0, v1, v2, v3, v4, v5, v6, v7, v8, v9, v10, v11, v12⟩ := daysBefore_values
    unfold time.daysIn at hd
    split_ifs at hd
    · omega
    · obtain ⟨k, hk⟩ : ∃ k, month = k := ⟨_, rfl⟩
      rw [hk] at hm1 hm12 hd
      interval_cases k <;>
        norm_num [v0, v1, v2, v3, v4, v5, v6, v7, v8, v9, v10, v11, v12] at hd <;> omega
  rw [Date_of_valid year month day hour min sec ((ms : Int) * 1000000) (by omega) (by omega)
    (by omega) (by omega) (by omega) (by omega) (by omega) (by omega) (by omega) (by omega)]
  have hdate := absDate_of_fields year month day ((hour : Int) * 3600 + (min : Int) * 60 + sec)
    (by omega) (by omega) (by omega) hd (by omega) (by omega)
  have hclock := absClock_of_fields (time.daysSinceEpoch year +
    time.daysBefore ((month : Int) - 1) +
    (if (time.isLeap year && decide ((month : Int) ≥ 3)) = true then 1 else 0) +
    ((day : Int) - 1)) hour min sec (by omega) (by omega) (by omega) (by omega) (by omega)
    (by omega)
  rw [Format_of_fields _ year month day hour min sec (by rw [Time.abs_UTC, hdate])
    (by rw [Time.abs_UTC, hclock])]
  simp only []
  have ens : (ms : Int) * 1000000 = ((ms * 1000000 : Nat) : Int) := by omega
  rw [ens, appendInt_four year (by omega), appendInt_two month (by omega),
    appendInt_two day (by omega), appendInt_two hour (by omega),
    appendInt_two min (by omega), appendInt_two sec (by omega),
    appendNano_eq (ms * 1000000) (by omega)]
  have e1 : year / 10 / 10 / 10 = year / 1000 := by omega
  have e2 : year / 10 / 10 = year / 100 := by omega
  have e3 : ms * 1000000 / 1000000 = ms := by omega
  have e4 : ms / 10 / 10 = ms / 100 := by omega
  rw [e1, e2, e3, e4]
  rfl

/-! ## Literals in the shape of the layout: lemmas -/

theorem Char.isDigit_eq_digitChar (c : Char) (h : c.isDigit = true) :
    c = digitChar (c.toNat - 48) := by
  simp only [Char.isDigit, Bool.and_eq_true, decide_eq_true_eq] at h
  obtain ⟨h0, h9⟩ := h
  rw [ge_iff_le, UInt32.le_def] at h0
  rw [UInt32.le_def] at h9
  have h0' : 48 ≤ c.toNat := h0
  have h9' : c.toNat ≤ 57 := h9
  have e : c = Char.ofNat (48 + (c.toNat - 48)) := by
    rw [show 48 + (c.toNat - 48) = c.toNat by omega, Char.ofNat_toNat]
  rw [← digitChar_of_lt _ (by omega)]
  exact e

theorem digitChar_isDigit_eq (k : Nat) : (digitChar k).isDigit = true := by
  rcases digitChar_cases k with h | h | h | h | h | h | h | h | h | h <;> rw [h] <;> decide

/-- A string in the shape of the layout is seventeen digits with the
characters of the layout between them. -/
theorem inLayoutShape_digits (s : String) (h : inLayoutShape s = true) :
    ∃ y3 y2 y1 y0 m1 m0 d1 d0 h1 h0 i1 i0 s1 s0 n2 n1 n0 : Nat,
      s = String.mk [digitChar y3, digitChar y2, digitChar y1, digitChar y0, '-',
        digitChar m1, digitChar m0, '-', digitChar d1, digitChar d0, 'T',
        digitChar h1, digitChar h0, ':', digitChar i1, digitChar i0, ':',
        digitChar s1, digitChar s0, '.', digitChar n2, digitChar n1, digitChar n0, 'Z'] := by
  unfold inLayoutShape at h
  split at h
  · rename_i y3 y2 y1 y0 c4 m1 m0 c7 d1 d0 c10 h1 h0 c13 i1 i0 c16 s1 s0 c19 n2 n1 n0 c23 hl
    simp only [List.all_cons, List.all_nil, Bool.and_true, Bool.and_eq_true,
      decide_eq_true_eq, List.cons.injEq, and_true] at h
    obtain ⟨⟨a1, a2, a3, a4, a5, a6, a7, a8, a9, a10, a11, a12, a13, a14, a15, a16, a17⟩,
      b1, b2, b3, b4, b5, b6, b7⟩ := h
    subst b1 b2 b3 b4 b5 b6 b7
    refine ⟨y3.toNat - 48, y2.toNat - 48, y1.toNat - 48, y0.toNat - 48, m1.toNat - 48,
      m0.toNat - 48, d1.toNat - 48, d0.toNat - 48, h1.toNat - 48, h0.toNat - 48,
      i1.toNat - 48, i0.toNat - 48, s1.toNat - 48, s0.toNat - 48, n2.toNat - 48,
      n1.toNat - 48, n0.toNat - 48, ?_⟩
    rw [← Char.isDigit_eq_digitChar _ a1, ← Char.isDigit_eq_digitChar _ a2,
      ← Char.isDigit_eq_digitChar _ a3, ← Char.isDigit_eq_digitChar _ a4,
      ← Char.isDigit_eq_digitChar _ a5, ← Char.isDigit_eq_digitChar _ a6,
      ← Char.isDigit_eq_digitChar _ a7, ← Char.isDigit_eq_digitChar _ a8,
      ← Char.isDigit_eq_digitChar _ a9, ← Char.isDigit_eq_digitChar _ a10,
      ← Char.isDigit_eq_digitChar _ a11, ← Char.isDigit_eq_digitChar _ a12,
      ← Char.isDigit_eq_digitChar _ a13, ← Char.isDigit_eq_digitChar _ a14,
      ← Char.isDigit_eq_digitChar _ a15, ← Char.isDigit_eq_digitChar _ a16,
      ← Char.isDigit_eq_digitChar _ a17, ← hl]
    rfl
  · cases h

theorem inLayoutShape_of_digits (y3 y2 y1 y0 m1 m0 d1 d0 h1 h0 i1 i0 s1 s0 n2 n1 n0 : Nat) :
    inLayoutShape (String.mk [digitChar y3, digitChar y2, digitChar y1, digitChar y0, '-',
        digitChar m1, digitChar m0, '-', digitChar d1, digitChar d0, 'T',
        digitChar h1, digitChar h0, ':', digitChar i1, digitChar i0, ':',
        digitChar s1, digitChar s0, '.', digitChar n2, digitChar n1, digitChar n0, 'Z']) =
      true := by
  simp [inLayoutShape, digitChar_isDigit_eq]

/-- A literal in the shape of the layout parses only if its fields are in
range, and then to the date of its fields. -/
theorem Parse_digits_ok (y3 y2 y1 y0 m1 m0 d1 d0 h1 h0 i1 i0 s1 s0 n2 n1 n0 : Nat)
    (T : time.Time)
    (h : time.Parse (String.mk [digitChar y3, digitChar y2, digitChar y1, digitChar y0, '-',
      digitChar m1, digitChar m0, '-', digitChar d1, digitChar d0, 'T',
      digitChar h1, digitChar h0, ':', digitChar i1, digitChar i0, ':',
      digitChar s1, digitChar s0, '.', digitChar n2, digitChar n1, digitChar n0, 'Z']) =
      .ok T) :
    (1 ≤ m1 % 10 * 10 + m0 % 10 ∧ m1 % 10 * 10 + m0 % 10 ≤ 12) ∧
      h1 % 10 * 10 + h0 % 10 < 24 ∧ i1 % 10 * 10 + i0 % 10 < 60 ∧
      s1 % 10 * 10 + s0 % 10 < 60 ∧
      (1 ≤ d1 % 10 * 10 + d0 % 10 ∧
        ((d1 % 10 * 10 + d0 % 10 : Nat) : Int) ≤
          time.daysIn ((m1 % 10 * 10 + m0 % 10 : Nat) : Int)
            ((y3 % 10 * 1000 + y2 % 10 * 100 + y1 % 10 * 10 + y0 % 10 : Nat) : Int)) := by
  have c9 : ¬ (((n2 % 10 * 100 + n1 % 10 * 10 + n0 % 10 : Nat) : Int) < 0) := by omega
  unfold time.Parse at h
  simp only [String.toList, List.length_cons, List.length_nil, List.take, List.drop,
    isDigit_zero, atoi_digits4, time.skip, getnum_digits, time.parseNanoseconds,
    time.commaOrPeriod, atoi_digits3, List.getD_cons_zero, c9, if_true, if_false, decide_True,
    decide_False, Bool.or_self, Bool.false_eq_true, Bool.not_true, Bool.or_false,
    Bool.or_true, Bool.true_or, Bool.not_false, ne_eq, not_true_eq_false, not_false_eq_true]
    at h
  split_ifs at h
  rename_i _ cm ch ci cs _ cd
  simp only [Bool.or_eq_true, decide_eq_true_eq, not_or, not_le, not_lt] at cm ch ci cs cd
  exact ⟨by omega, by omega, by omega, by omega, by omega, cd.2⟩

/-! ## Rendering what was parsed -/

/-- A literal that parses and is in the shape of the layout is rendered back
as itself. -/
theorem Format_Parse_of_shape (s : String) (T : time.Time) (hT : time.Parse s = .ok T)
    (hs : inLayoutShape s = true) : T.Format = s := by
  obtain ⟨y3, y2, y1, y0, m1, m0, d1, d0, h1, h0, i1, i0, s1, s0, n2, n1, n0, rfl⟩ :=
    inLayoutShape_digits s hs
  obtain ⟨hm, hh, hi, hsec, hd⟩ :=
    Parse_digits_ok y3 y2 y1 y0 m1 m0 d1 d0 h1 h0 i1 i0 s1 s0 n2 n1 n0 T hT
  rw [Parse_digits y3 y2 y1 y0 m1 m0 d1 d0 h1 h0 i1 i0 s1 s0 n2 n1 n0 hm hh hi hsec hd] at hT
  rw [← Except.ok.inj hT,
    Format_Date _ _ _ _ _ _ _ (by omega) hm.1 hm.2 hd.1 hd.2 hh hi hsec (by omega)]
  congr 1
  simp only [List.cons.injEq, true_and, and_true]
  refine ⟨?_, ?_, ?_, ?_, ?_, ?_, ?_, ?_, ?_, ?_, ?_, ?_, ?_, ?_, ?_, ?_, ?_⟩ <;>
    (apply digitChar_congr; omega)

/-- What `Format` writes for a parsed time is in the shape of the layout. -/
theorem inLayoutShape_Format (s : String) (T : time.Time) (hT : time.Parse s = .ok T) :
    inLayoutShape T.Format = true := by
  obtain ⟨year, month, day, hour, min, sec, ms, rfl, y0, y9, m1, m12, d1, dle, h0, h24, mi0,
    mi60, s0, s60, ms0, ms999⟩ := Parse_ok_fields s T hT
  lift year to ℕ using y0
  lift month to ℕ using (by omega)
  lift day to ℕ using (by omega)
  lift hour to ℕ using h0
  lift min to ℕ using mi0
  lift sec to ℕ using s0
  lift ms to ℕ using ms0
  rw [Format_Date year month day hour min sec ms (by omega) (by omega) (by omega) (by omega)
    dle (by omega) (by omega) (by omega) (by omega)]
  exact inLayoutShape_of_digits _ _ _ _ _ _ _ _ _ _ _ _ _ _ _ _ _

/-- Among the literals that parse, the ones rendered back as themselves are
exactly those in the shape of the layout. -/
theorem Format_Parse_iff_shape (s : String) (T : time.Time) (hT : time.Parse s = .ok T) :
    T.Format = s ↔ inLayoutShape s = true := by
  constructor
  · intro h
    rw [← h]
    exact inLayoutShape_Format s T hT
  · exact Format_Parse_of_shape s T hT

/-! ## The claims -/

/-- C1. In `listAdminReportsActivities`, when the client is constructed and the
application name is supplied, a query with the single predicate `time op s`,
where `op` is one of the operators declared on the key column `time` and the
literal `s` parses to the instant `T`, leads to a request whose bounds are:
for `>` the start `T` plus one second and no end; for `>=` the start `T` and no
end; for `=` the start `T` and the end `T`; for `<=` the end `T` and no start;
for `<` the end `T` minus one second and no start. Each bound is the rendering
of its instant by `Format` with the layout `2006-01-02T15:04:05.000Z`; the
instants `T` plus and minus one second differ from `T` by exactly one in the
seconds and not at all in the nanoseconds; and each rendering, read back under
the layout, is its instant again, whatever minute, day, month or year boundary
the second crossed, as long as the instant is in the years 0000 to 9999 that
the layout writes with four digits. -/
theorem C1_time_operator_bounds {ι : Type} (env : Env ι) (d : plugin.QueryData)
    (app op s : String) (T : time.Time)
    (hsvc : env.AdminReportsService = .ok ())
    (happ : d.KeyColumnQuals "application_name" = some app)
    (hop : ∃ k ∈ tableGoogleWorkspaceAdminReportsActivities.KeyColumns,
      k.Name = "time" ∧ op ∈ k.Operators)
    (hq : d.Quals "time" = some [⟨op, s⟩])
    (hT : time.Parse s = .ok T) :
    ∃ resp, activitiesRequest env d = .request resp ∧
      (op = ">" → resp.startTime = some (T.Add time.Second).Format ∧ resp.endTime = none) ∧
      (op = ">=" → resp.startTime = some T.Format ∧ resp.endTime = none) ∧
      (op = "=" → resp.startTime = some T.Format ∧ resp.endTime = some T.Format) ∧
      (op = "<=" → resp.startTime = none ∧ resp.endTime = some T.Format) ∧
      (op = "<" → resp.startTime = none ∧ resp.endTime = some (T.Add (-time.Second)).Format) ∧
      (T.Add time.Second).sec = T.sec + 1 ∧ (T.Add time.Second).nsec = T.nsec ∧
      (T.Add (-time.Second)).sec = T.sec - 1 ∧ (T.Add (-time.Second)).nsec = T.nsec ∧
      time.Parse T.Format = .ok T ∧
      ((T.Add time.Second).sec < 253402300800 →
        time.Parse (T.Add time.Second).Format = .ok (T.Add time.Second)) ∧
      (-62167219200 ≤ (T.Add (-time.Second)).sec →
        time.Parse (T.Add (-time.Second)).Format = .ok (T.Add (-time.Second))) := by
  obtain ⟨hloc, hn0, hn1, hms, hlo, hhi⟩ := Parse_ok_range s T hT
  have hr : 0 ≤ T.nsec ∧ T.nsec < 1000000000 := ⟨hn0, hn1⟩
  have hplus := Time.Add_Second T hr.1 hr.2
  have hminus := Time.Add_neg_Second T hr.1 hr.2
  have hback : time.Parse T.Format = .ok T ∧
      ((T.Add time.Second).sec < 253402300800 →
        time.Parse (T.Add time.Second).Format = .ok (T.Add time.Second)) ∧
      (-62167219200 ≤ (T.Add (-time.Second)).sec →
        time.Parse (T.Add (-time.Second)).Format = .ok (T.Add (-time.Second))) := by
    refine ⟨Parse_Format_UTC T hloc hn0 hn1 hms hlo hhi, ?_, ?_⟩
    · intro h
      rw [hplus] at h ⊢
      exact Parse_Format_UTC _ hloc hn0 hn1 hms (by simp only []; omega) h
    · intro h
      rw [hminus] at h ⊢
      exact Parse_Format_UTC _ hloc hn0 hn1 hms h (by simp only []; omega)
  have hops : op = ">" ∨ op = ">=" ∨ op = "=" ∨ op = "<" ∨ op = "<=" := by
    obtain ⟨k, hk, hname, hmem⟩ := hop
    simp only [tableGoogleWorkspaceAdminReportsActivities.KeyColumns, List.mem_cons,
      List.mem_singleton, List.not_mem_nil, or_false] at hk
    rcases hk with rfl | rfl | rfl | rfl | rfl | rfl | rfl | rfl | rfl <;>
      first
        | (exact absurd hname (by decide))
        | (simpa using hmem)
  have key : ∀ st en : Option String,
      (∀ resp : ActivitiesListCall, resp.startTime = none → resp.endTime = none →
        timeQuals [⟨op, s⟩] resp = .ok { resp with startTime := st, endTime := en }) →
      activitiesRequest env d = .request
        { userKey := (d.KeyColumnQuals "user_key").getD "all"
          applicationName := app
          maxResults := some (pageSize d.Limit)
          actorIpAddress := d.KeyColumnQuals "actor_ip_address"
          customerId := d.KeyColumnQuals "customer_id"
          startTime := st
          endTime := en
          eventName := d.KeyColumnQuals "event_name"
          filters := d.KeyColumnQuals "filters"
          orgUnitID := d.KeyColumnQuals "org_unit_id"
          groupIdFilter := d.KeyColumnQuals "group_id_filter"
          pageToken := none } := by
    intro st en h
    apply activitiesRequest_of_bounds env d app st en hsvc happ
    intro resp h1 h2
    rw [hq]
    exact h resp h1 h2
  have one : time.Second * 1 = time.Second := Int.mul_one _
  have neg : -1 * time.Second = -time.Second := by decide
  have step : ∀ st en : Option String,
      (∀ resp : ActivitiesListCall, resp.startTime = none → resp.endTime = none →
        timeQuals [⟨op, s⟩] resp = .ok { resp with startTime := st, endTime := en }) →
      ∃ resp, activitiesRequest env d = .request resp ∧ resp.startTime = st ∧
        resp.endTime = en := fun st en h => ⟨_, key st en h, rfl, rfl⟩
  rcases hops with rfl | rfl | rfl | rfl | rfl
  · obtain ⟨resp, hresp, h1, h2⟩ := step (some (T.Add time.Second).Format) none (by
      intro resp h1 h2
      cases resp
      simp only [] at h1 h2
      subst h1 h2
      simp only [timeQuals, hT, one]
      rfl)
    refine ⟨resp, hresp, fun _ => ⟨h1, h2⟩, ?_, ?_, ?_, ?_, ?_⟩
    all_goals first
      | (intro h; exact absurd h (by decide))
      | exact ⟨by simp [hplus], by simp [hplus], by simp [hminus], by simp [hminus], hback⟩
  · obtain ⟨resp, hresp, h1, h2⟩ := step (some T.Format) none (by
      intro resp h1 h2
      cases resp
      simp only [] at h1 h2
      subst h1 h2
      simp only [timeQuals, hT]
      rfl)
    refine ⟨resp, hresp, ?_, fun _ => ⟨h1, h2⟩, ?_, ?_, ?_, ?_⟩
    all_goals first
      | (intro h; exact absurd h (by decide))
      | exact ⟨by simp [hplus], by simp [hplus], by simp [hminus], by simp [hminus], hback⟩
  · obtain ⟨resp, hresp, h1, h2⟩ := step (some T.Format) (some T.Format) (by
      intro resp h1 h2
      cases resp
      simp only [] at h1 h2
      subst h1 h2
      simp only [timeQuals, hT]
      rfl)
    refine ⟨resp, hresp, ?_, ?_, fun _ => ⟨h1, h2⟩, ?_, ?_, ?_⟩
    all_goals first
      | (intro h; exact absurd h (by decide))
      | exact ⟨by simp [hplus], by simp [hplus], by simp [hminus], by simp [hminus], hback⟩
  · obtain ⟨resp, hresp, h1, h2⟩ := step none (some (T.Add (-time.Second)).Format) (by
      intro resp h1 h2
      cases resp
      simp only [] at h1 h2
      subst h1 h2
      simp only [timeQuals, hT, neg]
      rfl)
    refine ⟨resp, hresp, ?_, ?_, ?_, ?_, fun _ => ⟨h1, h2⟩, ?_⟩
    all_goals first
      | (intro h; exact absurd h (by decide))
      | exact ⟨by simp [hplus], by simp [hplus], by simp [hminus], by simp [hminus], hback⟩
  · obtain ⟨resp, hresp, h1, h2⟩ := step none (some T.Format) (by
      intro resp h1 h2
      cases resp
      simp only [] at h1 h2
      subst h1 h2
      simp only [timeQuals, hT]
      rfl)
    refine ⟨resp, hresp, ?_, ?_, ?_, fun _ => ⟨h1, h2⟩, ?_, ?_⟩
    all_goals first
      | (intro h; exact absurd h (by decide))
      | exact ⟨by simp [hplus], by simp [hplus], by simp [hminus], by simp [hminus], hback⟩

theorem C1_time_operator_bounds_witness :
    ∃ resp, activitiesRequest Sample.env (Sample.queryTime ">" "2022-12-31T23:59:59.000Z") =
        .request resp ∧
      resp.startTime = some "2023-01-01T00:00:00.000Z" ∧ resp.endTime = none := by
  obtain ⟨resp, h, hgt, -⟩ := C1_time_operator_bounds Sample.env
    (Sample.queryTime ">" "2022-12-31T23:59:59.000Z") "drive" ">" "2022-12-31T23:59:59.000Z"
    ⟨1672531199, 0, time.UTC⟩ rfl rfl (by decide) rfl rfl
  exact ⟨resp, h, (hgt rfl).1.trans (by decide), (hgt rfl).2⟩

/-- With no predicate on `time`, the start bound is the rendering of the
clock's reading minus twenty-four hours on the wall clock of the reading's own
location, and there is no end bound. -/
theorem activitiesRequest_default_bounds {ι : Type} (env : Env ι) (d : plugin.QueryData)
    (app : String)
    (hsvc : env.AdminReportsService = .ok ())
    (happ : d.KeyColumnQuals "application_name" = some app)
    (hq : d.Quals "time" = none) :
    ∃ resp, activitiesRequest env d = .request resp ∧
      resp.startTime = some (env.Now.Add (-24 * time.Hour)).Format ∧ resp.endTime = none := by
  refine ⟨_, activitiesRequest_of_bounds env d app _ _ hsvc happ ?_, rfl, rfl⟩
  intro resp h1 h2
  rw [hq]
  cases resp
  simp only [] at h1 h2
  subst h1 h2
  rfl

/-- Where the offset of the location of `t` is zero at `t`, the rendering of
`t` is its rendering in UTC. -/
theorem Time.Format_eq_UTC (t : time.Time) (h : t.loc.lookup t.sec = 0) :
    t.Format = t.UTC.Format := by
  simp [time.Time.Format, time.Time.abs, time.Time.UTC, time.UTC, h]

theorem Time.Add_neg_day (t : time.Time) (h0 : 0 ≤ t.nsec) (h1 : t.nsec < 1000000000) :
    t.Add (-24 * time.Hour) = ⟨t.sec - 86400, t.nsec, t.loc⟩ := by
  have e1 : Int.tdiv (-24 * time.Hour) 1000000000 = -86400 := by decide
  have e2 : Int.tmod (-24 * time.Hour) 1000000000 = 0 := by decide
  simp only [time.Time.Add, e1, e2]
  rw [if_neg (by omega), if_neg (by omega)]
  simp
  rfl

/-- With no predicate on `time`, the start bound on the request, read back
under the layout, is the instant twenty-four hours before the clock's reading
shifted by the offset of the local zone at that instant (and cut to the
millisecond): it is the intended instant where that offset is zero. -/
theorem default_start_bound_reads_back {ι : Type} (env : Env ι) (d : plugin.QueryData)
    (app : String)
    (hsvc : env.AdminReportsService = .ok ())
    (happ : d.KeyColumnQuals "application_name" = some app)
    (hq : d.Quals "time" = none)
    (hn0 : 0 ≤ env.Now.nsec) (hn : env.Now.nsec < 1000000000)
    (hlo : -62167219200 ≤ env.Now.sec - 86400 + env.Now.loc.lookup (env.Now.sec - 86400))
    (hhi : env.Now.sec - 86400 + env.Now.loc.lookup (env.Now.sec - 86400) < 253402300800) :
    ∃ resp bound, activitiesRequest env d = .request resp ∧
      resp.startTime = some bound ∧ resp.endTime = none ∧
      time.Parse bound =
        .ok ⟨env.Now.sec - 86400 + env.Now.loc.lookup (env.Now.sec - 86400),
          env.Now.nsec / 1000000 * 1000000, time.UTC⟩ := by
  obtain ⟨resp, h, h1, h2⟩ := activitiesRequest_default_bounds env d app hsvc happ hq
  refine ⟨resp, _, h, h1, h2, ?_⟩
  rw [Time.Add_neg_day env.Now hn0 hn]
  exact Parse_Format ⟨env.Now.sec - 86400, env.Now.nsec, env.Now.loc⟩ hn0 hn hlo hhi

/-- C2, at an input on which the code departs from it. The clock reads
2022-09-26 08:26:32.245 UTC in a zone nine hours east of UTC and the query has
no predicate on `time`: the start bound on the request is
`2022-09-25T17:26:32.245Z`, the wall-clock time of that zone twenty-four hours
earlier, while the UTC rendering of that instant is
`2022-09-25T08:26:32.245Z`. No end bound is set. -/
theorem C2_local_zone_start_bound :
    Sample.query.Quals "time" = none ∧
      Sample.env.Now.loc.lookup Sample.env.Now.sec = 9 * 3600 ∧
      (Sample.env.Now.Add (-24 * time.Hour)).UTC.Format = "2022-09-25T08:26:32.245Z" ∧
      ∃ resp, activitiesRequest Sample.env Sample.query = .request resp ∧
        resp.startTime = some "2022-09-25T17:26:32.245Z" ∧ resp.endTime = none := by
  refine ⟨rfl, by decide, by decide, ?_⟩
  obtain ⟨resp, h, h1, h2⟩ := activitiesRequest_default_bounds Sample.env Sample.query "drive"
    rfl rfl rfl
  exact ⟨resp, h, h1.trans (by decide), h2⟩

/-- C3 fails as stated: with no filter at all and the construction of the
client failing, the activities routine returns the construction error. -/
theorem C3_counterexample :
    (∃ k ∈ Table.activities.keys plugin.Required, Sample.queryEmpty.KeyColumnQuals k = none) ∧
      Table.activities.Hydrate Sample.envNoClient Sample.queryEmpty 1 =
        some ⟨[], [], some (.client "credentials not found")⟩ := by
  decide

/-- C3, amended. For each of the four listing routines and every query in
which at least one required filter of the table is absent, the routine emits
no row and fetches no page; it returns no error when the construction of the
client succeeded, and the construction error when it failed. -/
theorem C3_missing_required_filter {ι : Type} (t : Table) (env : Env ι)
    (d : plugin.QueryData) (fuel : Nat)
    (hmiss : ∃ k ∈ t.keys plugin.Required, d.KeyColumnQuals k = none) :
    t.Hydrate env d fuel =
      some ⟨[], [], match env.AdminReportsService with
        | .ok _ => none
        | .error err => some err⟩ := by
  obtain ⟨k, hk, hnone⟩ := hmiss
  cases t
  · simp only [Table.keys_required_activities, List.mem_singleton] at hk
    subst hk
    simp only [Table.Hydrate, listAdminReportsActivities, activitiesRequest, hnone]
    cases env.AdminReportsService <;> rfl
  · simp only [Table.keys_required_customerUsage, List.mem_singleton] at hk
    subst hk
    simp only [Table.Hydrate, listAdminReportsCustomerUsage, customerUsageRequest, hnone]
    cases env.AdminReportsService <;> rfl
  · simp only [Table.keys_required_entityUsage, List.mem_cons, List.mem_singleton,
      List.not_mem_nil, or_false] at hk
    rcases hk with rfl | rfl
    · simp only [Table.Hydrate, listAdminReportsEntityUsage, entityUsageRequest, hnone]
      cases env.AdminReportsService <;> rfl
    · simp only [Table.Hydrate, listAdminReportsEntityUsage, entityUsageRequest, hnone]
      cases env.AdminReportsService <;> cases d.KeyColumnQuals "date" <;> rfl
  · simp only [Table.keys_required_userUsage, List.mem_singleton] at hk
    subst hk
    simp only [Table.Hydrate, listAdminReportsUserUsage, userUsageRequest, hnone]
    cases env.AdminReportsService <;> rfl

theorem C3_missing_required_filter_witness :
    Table.entityUsage.Hydrate Sample.env Sample.queryEmpty 5 = some ⟨[], [], none⟩ :=
  C3_missing_required_filter Table.entityUsage Sample.env Sample.queryEmpty 5
    ⟨"entity_type", by decide, rfl⟩

/-- C4. In `listAdminReportsActivities`, `listAdminReportsEntityUsage` and
`listAdminReportsUserUsage`, when a request is built (the client is
constructed, the required filters are supplied, the literals of the predicates
on `time` parse), its page size is 1000 when the row-limit hint is absent or
at least 1000, and the hint itself when the hint is below 1000; so it never
exceeds 1000 and is the lesser of the hint and 1000 whenever there is a
hint. -/
theorem C4_page_size_cap {ι : Type} (t : Table) (env : Env ι) (d : plugin.QueryData)
    (ht : t = .activities ∨ t = .entityUsage ∨ t = .userUsage)
    (hsvc : env.AdminReportsService = .ok ())
    (hreq : ∀ k ∈ t.keys plugin.Required, d.KeyColumnQuals k ≠ none)
    (htime : t = .activities → ∀ quals, d.Quals "time" = some quals →
      ∀ q ∈ quals, ∃ T, time.Parse q.Value = .ok T) :
    ∃ req n, t.request env d = .request req ∧ req.maxResults = some n ∧
      (d.Limit = none → n = 1000) ∧
      (∀ L, d.Limit = some L → 1000 ≤ L → n = 1000) ∧
      (∀ L, d.Limit = some L → L < 1000 → n = L) ∧
      n ≤ 1000 ∧
      (∀ L, d.Limit = some L → n = min L 1000) := by
  obtain ⟨req, hreq', hmax, -⟩ := Table.request_ready t env d hsvc hreq htime
  have hne : t ≠ .customerUsage := by
    rcases ht with rfl | rfl | rfl <;> decide
  rw [if_neg hne] at hmax
  refine ⟨req, pageSize d.Limit, hreq', hmax, ?_, ?_, ?_, ?_, ?_⟩
  · intro h
    simp [pageSize, h]
  · intro L h hL
    simp only [pageSize, h]
    rw [if_neg (by omega)]
  · intro L h hL
    simp only [pageSize, h]
    rw [if_pos hL]
  · unfold pageSize
    split
    · exact le_refl _
    · split <;> omega
  · intro L h
    simp only [pageSize, h]
    split
    · rw [min_eq_left (by omega)]
    · rw [min_eq_right (by omega)]

theorem C4_page_size_cap_witness :
    (∃ req, Table.userUsage.request Sample.env Sample.query = .request req ∧
      req.maxResults = some 50) ∧
    (∃ req, Table.entityUsage.request Sample.env Sample.queryLimit5000 = .request req ∧
      req.maxResults = some 1000) := by
  constructor
  · obtain ⟨req, n, h, hn, -, -, hlt, -⟩ := C4_page_size_cap Table.userUsage Sample.env
      Sample.query (by decide) rfl (by decide) (by intro h; cases h)
    exact ⟨req, h, by rw [hn, hlt 50 rfl (by decide)]⟩
  · obtain ⟨req, n, h, hn, -, hge, -⟩ := C4_page_size_cap Table.entityUsage Sample.env
      Sample.queryLimit5000 (by decide) rfl (by decide) (by intro h; cases h)
    exact ⟨req, h, by rw [hn, hge 5000 rfl (by decide)]⟩

/-- C5. For each listing routine whose request is built: when the fetches
`0, …, p` succeed with the pages `pg 0, …, pg p`, the pages before `pg p` have
non-empty continuation tokens, the `k`-th item overall lies on the page `pg p`,
and the cancellation signal is first observed raised at the check that follows
the `k`-th emitted item, then with room for more than `p` fetches the routine
returns no error, the rows emitted are exactly the first `k` items of the
concatenation of the pages' items, the callback hands back `pg p` with its
continuation token cleared, and no page after `pg p` is fetched. -/
theorem C5_cancellation_stops_streaming {ι : Type} (t : Table) (env : Env ι)
    (d : plugin.QueryData) (pg : Nat → Page ι) (p k : Nat)
    (hsvc : env.AdminReportsService = .ok ())
    (hreq : ∀ k ∈ t.keys plugin.Required, d.KeyColumnQuals k ≠ none)
    (htime : t = .activities → ∀ quals, d.Quals "time" = some quals →
      ∀ q ∈ quals, ∃ T, time.Parse q.Value = .ok T)
    (hok : ∀ i ≤ p, env.Do i = .ok (pg i))
    (hmore : ∀ i < p, (pg i).NextPageToken ≠ "")
    (hk1 : (itemsUpTo pg p).length < k)
    (hk2 : k ≤ (itemsUpTo pg (p + 1)).length)
    (hfirst : ∀ j < k, env.IsCancelled j = false)
    (hraised : env.IsCancelled k = true) :
    ∀ fuel, p < fuel → ∃ out, t.Hydrate env d fuel = some out ∧
      out.rows = (itemsUpTo pg (p + 1)).take k ∧ out.err = none ∧
      out.fetches.length = p + 1 ∧
      (streamPage env.IsCancelled (pg p) (itemsUpTo pg p)).1.NextPageToken = "" := by
  intro fuel hfuel
  obtain ⟨req, hreq', -⟩ := Table.request_ready t env d hsvc hreq htime
  obtain ⟨c', fetches, hlen, hrun⟩ := Pages_prefix env pg req p
    (fun i hi => hok i (by omega)) hmore (fun j hj => hfirst j (by omega))
  obtain ⟨f, rfl⟩ : ∃ f, fuel = f + 1 + p := ⟨fuel - 1 - p, by omega⟩
  obtain ⟨m, rfl⟩ : ∃ m, k = (itemsUpTo pg p).length + m := ⟨k - (itemsUpTo pg p).length, by omega⟩
  have hm2 : m ≤ (pg p).Items.length := by
    simp only [itemsUpTo, List.length_append] at hk2
    omega
  have hs := streamItems_of_cancelled env.IsCancelled (pg p).Items (itemsUpTo pg p) m
    (by omega) hm2 (fun j _ hj => hfirst j hj) hraised
  have htake : (itemsUpTo pg (p + 1)).take ((itemsUpTo pg p).length + m) =
      itemsUpTo pg p ++ (pg p).Items.take m := by
    simp [itemsUpTo, List.take_append]
  rw [Table.Hydrate_eq, hreq']
  simp only []
  rw [hrun (f + 1)]
  refine ⟨⟨itemsUpTo pg p ++ (pg p).Items.take m, fetches ++ [c'], none⟩, ?_, htake.symm, rfl,
    by simp [hlen], by simp [streamPage, hs]⟩
  simp [Pages, hlen, hok p (le_refl p), streamPage, hs]

theorem C5_cancellation_stops_streaming_witness :
    ∃ out, Table.activities.Hydrate Sample.envCancelled Sample.query 4 = some out ∧
      out.rows = [1, 2, 3] ∧ out.err = none ∧ out.fetches.length = 1 := by
  obtain ⟨out, h, hrows, herr, hlen, -⟩ := C5_cancellation_stops_streaming Table.activities
    Sample.envCancelled Sample.query Sample.tenItems 0 3 rfl (by decide)
    (by intro _ quals h; cases h) (fun _ _ => rfl) (by intro i hi; omega)
    (by decide) (by decide) (by intro j hj; interval_cases j <;> rfl) rfl 4 (by decide)
  exact ⟨out, h, hrows, herr, hlen⟩

/-- C6. For each listing routine whose request is built: when the fetches
`0, …, n - 1` succeed with the pages `pg 0, …, pg (n - 1)`, each with a
non-empty continuation token, no cancellation is observed while their items
are emitted, and the next fetch fails with the error `e`, then with room for
more than `n` fetches the routine returns exactly `e`, after emitting every
item of those `n` pages, in page order and in each page's order. -/
theorem C6_error_after_pages {ι : Type} (t : Table) (env : Env ι)
    (d : plugin.QueryData) (pg : Nat → Page ι) (n : Nat) (e : GoError)
    (hsvc : env.AdminReportsService = .ok ())
    (hreq : ∀ k ∈ t.keys plugin.Required, d.KeyColumnQuals k ≠ none)
    (htime : t = .activities → ∀ quals, d.Quals "time" = some quals →
      ∀ q ∈ quals, ∃ T, time.Parse q.Value = .ok T)
    (hok : ∀ i < n, env.Do i = .ok (pg i))
    (hmore : ∀ i < n, (pg i).NextPageToken ≠ "")
    (hnc : ∀ j, j ≤ (itemsUpTo pg n).length → env.IsCancelled j = false)
    (hfail : env.Do n = .error e) :
    ∀ fuel, n < fuel → ∃ out, t.Hydrate env d fuel = some out ∧
      out.rows = itemsUpTo pg n ∧ out.err = some e ∧ out.fetches.length = n + 1 := by
  intro fuel hfuel
  obtain ⟨req, hreq', -⟩ := Table.request_ready t env d hsvc hreq htime
  obtain ⟨c', fetches, hlen, hrun⟩ := Pages_prefix env pg req n hok hmore hnc
  obtain ⟨f, rfl⟩ : ∃ f, fuel = f + 1 + n := ⟨fuel - 1 - n, by omega⟩
  rw [Table.Hydrate_eq, hreq']
  simp only []
  rw [hrun (f + 1)]
  refine ⟨⟨itemsUpTo pg n, fetches ++ [c'], some e⟩, ?_, rfl, rfl, by simp [hlen]⟩
  simp [Pages, hlen, hfail]

theorem C6_error_after_pages_witness :
    ∃ out, Table.userUsage.Hydrate Sample.envSecondFails Sample.query 2 = some out ∧
      out.rows = [11, 12, 13] ∧ out.err = some (.client "backendError") ∧
      out.fetches.length = 2 :=
  C6_error_after_pages Table.userUsage Sample.envSecondFails Sample.query Sample.pages 1
    (.client "backendError") rfl (by decide) (by intro h; cases h)
    (by intro i hi; interval_cases i; rfl)
    (by intro i hi; interval_cases i; decide)
    (fun _ _ => rfl) rfl 2 (by decide)

/-- C7 fails as stated. The literal `2022-09-25T8:26:32.045Z` is not in the
format `2006-01-02T15:04:05.000Z` (its hour has one digit), yet for the
predicate `time >= 2022-09-25T8:26:32.045Z` the routine returns no error,
fetches three pages and emits their rows. And with the malformed literal of
`queryBadTime` (two digits of milliseconds) the routine returns no parse error
when the application name is absent (it returns no error at all) or when the
construction of the client fails (it returns the construction error). -/
theorem C7_counterexample :
    (inLayoutShape "2022-09-25T8:26:32.045Z" = false ∧
      ∃ out, listAdminReportsActivities Sample.env
          (Sample.queryTime ">=" "2022-09-25T8:26:32.045Z") 3 = some out ∧
        out.err = none ∧ out.rows = [11, 12, 13, 21, 22, 31] ∧ out.fetches.length = 3) ∧
    ((time.Parse "2024-03-01T00:00:00.00Z").toOption.isNone = true ∧
      inLayoutShape "2024-03-01T00:00:00.00Z" = false ∧
      Sample.queryBadTimeOnly.Quals "time" =
        some [⟨">", "2022-12-31T23:59:59.000Z"⟩, ⟨"<", "2024-03-01T00:00:00.00Z"⟩] ∧
      listAdminReportsActivities Sample.env Sample.queryBadTimeOnly 3 =
        some ⟨[], [], none⟩ ∧
      Sample.queryBadTime.Quals "time" =
        some [⟨">", "2022-12-31T23:59:59.000Z"⟩, ⟨"<", "2024-03-01T00:00:00.00Z"⟩] ∧
      listAdminReportsActivities Sample.envNoClient Sample.queryBadTime 3 =
        some ⟨[], [], some (.client "credentials not found")⟩) := by
  refine ⟨⟨by decide, _, rfl, rfl, rfl, rfl⟩, by decide, by decide, rfl, ?_, rfl, ?_⟩
  · decide
  · decide

/-- C7, amended. In `listAdminReportsActivities`, for every list of predicates
on `time` that contains at least one literal that `time.Parse` rejects under
the layout `2006-01-02T15:04:05.000Z`, whatever its position, its operator and
the other literals, the routine emits no row and fetches no page; it returns a
parse error (the one `time.Parse` gives for a literal of the list) when the
client is constructed and the application name is supplied, the construction
error when the construction of the client fails, and no error when the client
is constructed and the application name is absent. -/
theorem C7_malformed_literal {ι : Type} (env : Env ι) (d : plugin.QueryData)
    (quals : List plugin.Qual)
    (hq : d.Quals "time" = some quals)
    (hbad : ∃ q ∈ quals, ∀ T, time.Parse q.Value ≠ .ok T) :
    ∃ e : time.ParseError, (∃ q ∈ quals, time.Parse q.Value = .error e) ∧
      ∀ fuel, listAdminReportsActivities env d fuel =
        some ⟨[], [], match env.AdminReportsService with
          | .error err => some err
          | .ok _ =>
            match d.KeyColumnQuals "application_name" with
            | none => none
            | some _ => some (.parse e)⟩ := by
  have h := fun resp => timeQuals_error quals resp hbad
  have hsome : ∃ e : time.ParseError, ∃ q ∈ quals, time.Parse q.Value = .error e := by
    obtain ⟨q, hmem, hno⟩ := hbad
    cases hp : time.Parse q.Value with
    | ok T => exact absurd hp (hno T)
    | error e => exact ⟨e, q, hmem, hp⟩
  cases hsvc : env.AdminReportsService with
  | error err =>
    obtain ⟨e, hmem⟩ := hsome
    refine ⟨e, hmem, fun fuel => ?_⟩
    simp only [listAdminReportsActivities, activitiesRequest, hsvc]
  | ok u =>
    cases happ : d.KeyColumnQuals "application_name" with
    | none =>
      obtain ⟨e, hmem⟩ := hsome
      refine ⟨e, hmem, fun fuel => ?_⟩
      simp only [listAdminReportsActivities, activitiesRequest, hsvc, happ]
    | some app =>
      have hreq : ∃ e : time.ParseError, (∃ q ∈ quals, time.Parse q.Value = .error e) ∧
          activitiesRequest env d = .returned (some (.parse e)) := by
        simp only [activitiesRequest, hsvc, happ, hq]
        cases d.KeyColumnQuals "user_key" <;> cases d.KeyColumnQuals "customer_id" <;>
          cases d.KeyColumnQuals "actor_ip_address" <;> cases d.Limit <;>
          (simp only []
           obtain ⟨e, he, hmem⟩ := h _
           exact ⟨e, hmem, by rw [he]⟩)
      obtain ⟨e, hmem, hret⟩ := hreq
      exact ⟨e, hmem, fun fuel => by simp only [listAdminReportsActivities, hret]⟩

theorem C7_malformed_literal_witness :
    ∃ e : time.ParseError,
      listAdminReportsActivities Sample.env Sample.queryBadTime 3 =
        some ⟨[], [], some (.parse e)⟩ := by
  obtain ⟨e, -, h⟩ := C7_malformed_literal Sample.env Sample.queryBadTime
    [⟨">", "2022-12-31T23:59:59.000Z"⟩, ⟨"<", "2024-03-01T00:00:00.00Z"⟩] rfl
    ⟨⟨"<", "2024-03-01T00:00:00.00Z"⟩, by simp, by intro T h; cases h⟩
  exact ⟨e, h 3⟩

/-- C8. For each listing routine whose request is built: when the fetches
`0, …, p` succeed with the pages `pg 0, …, pg p`, the page `pg p` is the first
with an empty continuation token, and the cancellation signal is never raised,
then with room for more than `p` fetches the routine returns no error, has
fetched `p + 1` pages, and has emitted exactly the items of `pg 0, …, pg p`,
in fetch order, each page's items in their order. -/
theorem C8_rows_are_concatenation {ι : Type} (t : Table) (env : Env ι)
    (d : plugin.QueryData) (pg : Nat → Page ι) (p : Nat)
    (hsvc : env.AdminReportsService = .ok ())
    (hreq : ∀ k ∈ t.keys plugin.Required, d.KeyColumnQuals k ≠ none)
    (htime : t = .activities → ∀ quals, d.Quals "time" = some quals →
      ∀ q ∈ quals, ∃ T, time.Parse q.Value = .ok T)
    (hok : ∀ i ≤ p, env.Do i = .ok (pg i))
    (hmore : ∀ i < p, (pg i).NextPageToken ≠ "")
    (hlast : (pg p).NextPageToken = "")
    (hnc : ∀ n, env.IsCancelled n = false) :
    ∀ fuel, p < fuel → ∃ out, t.Hydrate env d fuel = some out ∧
      out.rows = itemsUpTo pg (p + 1) ∧ out.err = none ∧ out.fetches.length = p + 1 := by
  intro fuel hfuel
  obtain ⟨req, hreq', -⟩ := Table.request_ready t env d hsvc hreq htime
  obtain ⟨c', fetches, hlen, hrun⟩ := Pages_prefix env pg req p
    (fun i hi => hok i (by omega)) hmore (fun j _ => hnc j)
  obtain ⟨f, rfl⟩ : ∃ f, fuel = f + 1 + p := ⟨fuel - 1 - p, by omega⟩
  have hs := streamItems_of_not_cancelled env.IsCancelled (pg p).Items (itemsUpTo pg p)
    (fun j _ _ => hnc j)
  rw [Table.Hydrate_eq, hreq']
  simp only []
  rw [hrun (f + 1)]
  refine ⟨⟨itemsUpTo pg (p + 1), fetches ++ [c'], none⟩, ?_, rfl, rfl, by simp [hlen]⟩
  simp [Pages, hlen, hok p (le_refl p), streamPage, hs, hlast, itemsUpTo]

theorem C8_rows_are_concatenation_witness :
    ∃ out, Table.customerUsage.Hydrate Sample.env Sample.query 3 = some out ∧
      out.rows = [11, 12, 13, 21, 22, 31] ∧ out.err = none ∧ out.fetches.length = 3 :=
  C8_rows_are_concatenation Table.customerUsage Sample.env Sample.query Sample.pages 2
    rfl (by decide) (by intro h; cases h) (fun _ _ => rfl)
    (by intro i hi; interval_cases i <;> decide) rfl (fun _ => rfl) 3 (by decide)

/-- C9. For each listing routine and every query that supplies the required
filters (the client being constructed and, for activities, the literals of the
predicates on `time` parsing), the request that is built carries, for each
optional key column of the table other than `time` and the user or entity key,
the parameter of that column with exactly the supplied value when the filter
is present, and leaves it unset when the filter is absent; and the user key
(activities, user usage) or entity key (entity usage) of the request is the
supplied value when present and `all` when absent. -/
theorem C9_optional_parameters {ι : Type} (t : Table) (env : Env ι) (d : plugin.QueryData)
    (hsvc : env.AdminReportsService = .ok ())
    (hreq : ∀ k ∈ t.keys plugin.Required, d.KeyColumnQuals k ≠ none)
    (htime : t = .activities → ∀ quals, d.Quals "time" = some quals →
      ∀ q ∈ quals, ∃ T, time.Parse q.Value = .ok T) :
    ∃ req, t.request env d = .request req ∧
      (∀ k ∈ t.keys plugin.Optional, k ≠ "time" → k ≠ "user_key" → k ≠ "entity_key" →
        (∀ v, d.KeyColumnQuals k = some v → req.param k = some v) ∧
        (d.KeyColumnQuals k = none → req.param k = none)) ∧
      (∀ kc, t.keyColumn = some kc →
        (∀ v, d.KeyColumnQuals kc = some v → req.key = some v) ∧
        (d.KeyColumnQuals kc = none → req.key = some "all")) := by
  obtain ⟨req, hreq', -, hparam, hkey⟩ := Table.request_ready t env d hsvc hreq htime
  refine ⟨req, hreq', ?_, ?_⟩
  · intro k hk h1 h2 h3
    have := hparam k hk h1 h2 h3
    exact ⟨fun v hv => this.trans hv, fun hn => this.trans hn⟩
  · intro kc hkc
    have := hkey kc hkc
    exact ⟨fun v hv => by rw [this, hv]; rfl, fun hn => by rw [this, hn]; rfl⟩

theorem C9_optional_parameters_witness :
    ∃ req, Table.userUsage.request Sample.env Sample.query = .request req ∧
      req.param "customer_id" = some "C03az79cb" ∧ req.param "filters" = none ∧
      req.key = some "all" := by
  obtain ⟨req, h, hp, hk⟩ := C9_optional_parameters Table.userUsage Sample.env Sample.query
    rfl (by decide) (by intro h; cases h)
  exact ⟨req, h,
    (hp "customer_id" (by decide) (by decide) (by decide) (by decide)).1 _ rfl,
    (hp "filters" (by decide) (by decide) (by decide) (by decide)).2 rfl,
    (hk "user_key" rfl).2 rfl⟩

/-- C10 fails as stated: the request `listAdminReportsCustomerUsage` builds for
a query with a row limit of 50 carries no page-size parameter. -/
theorem C10_counterexample :
    Sample.query.Limit = some 50 ∧
      Table.customerUsage.request Sample.env Sample.query =
        .request (.customerUsage
          { date := "2022-09-25", customerId := some "C03az79cb" }) ∧
      (Request.customerUsage
        { date := "2022-09-25", customerId := some "C03az79cb" }).maxResults = none := by
  decide

/-- C10, amended. When a request is built, the requests of
`listAdminReportsActivities`, `listAdminReportsEntityUsage` and
`listAdminReportsUserUsage` carry a page size equal to the lesser of the row
limit and 1000 (1000 when the host supplies no limit); the request of
`listAdminReportsCustomerUsage` carries no page-size parameter. -/
theorem C10_page_size_by_table {ι : Type} (t : Table) (env : Env ι) (d : plugin.QueryData)
    (hsvc : env.AdminReportsService = .ok ())
    (hreq : ∀ k ∈ t.keys plugin.Required, d.KeyColumnQuals k ≠ none)
    (htime : t = .activities → ∀ quals, d.Quals "time" = some quals →
      ∀ q ∈ quals, ∃ T, time.Parse q.Value = .ok T) :
    ∃ req, t.request env d = .request req ∧
      (t = .customerUsage → req.maxResults = none) ∧
      (t ≠ .customerUsage → d.Limit = none → req.maxResults = some 1000) ∧
      (t ≠ .customerUsage → ∀ L, d.Limit = some L → req.maxResults = some (min L 1000)) := by
  obtain ⟨req, hreq', hmax, -⟩ := Table.request_ready t env d hsvc hreq htime
  refine ⟨req, hreq', ?_, ?_, ?_⟩
  · intro h
    rw [if_pos h] at hmax
    exact hmax
  · intro h hL
    rw [if_neg h] at hmax
    simp [hmax, pageSize, hL]
  · intro h L hL
    rw [if_neg h] at hmax
    rw [hmax]
    simp only [pageSize, hL]
    split
    · rw [min_eq_left (by omega)]
    · rw [min_eq_right (by omega)]

theorem C10_page_size_by_table_witness :
    (∃ req, Table.customerUsage.request Sample.env Sample.query = .request req ∧
      req.maxResults = none) ∧
    (∃ req, Table.activities.request Sample.env Sample.queryLimit5000 = .request req ∧
      req.maxResults = some 1000) := by
  constructor
  · obtain ⟨req, h, hc, -⟩ := C10_page_size_by_table Table.customerUsage Sample.env
      Sample.query rfl (by decide) (by intro h; cases h)
    exact ⟨req, h, hc rfl⟩
  · obtain ⟨req, h, -, -, hL⟩ := C10_page_size_by_table Table.activities Sample.env
      Sample.queryLimit5000 rfl (by decide) (by intro _ quals h; cases h)
    exact ⟨req, h, (hL (by decide) 5000 rfl).trans (by decide)⟩

/-- Claim C11. In `listAdminReportsActivities`, once the client is constructed
and the application name is supplied, a query that carries a list of predicates
on `time`, of any length, each with a literal that parses under the layout,
leads to a request whose start bound is the one determined by the last predicate of the list whose
operator is `>`, `>=` or `=`, and is unset exactly when the list has no such
predicate; whose end bound is the one determined by the last predicate whose
operator is `<`, `<=` or `=`, and is unset exactly when the list has no such
predicate; and the request is the same whatever the clock reads, so the default
of the reading minus twenty-four hours is never applied. Earlier predicates are
overwritten, not intersected with the later ones. -/
theorem C11_last_predicate_wins {ι : Type} (env : Env ι) (d : plugin.QueryData)
    (app : String) (quals : List plugin.Qual)
    (hsvc : env.AdminReportsService = .ok ())
    (happ : d.KeyColumnQuals "application_name" = some app)
    (hq : d.Quals "time" = some quals)
    (hwf : ∀ q ∈ quals, ∃ T, time.Parse q.Value = .ok T) :
    ∃ resp, activitiesRequest env d = .request resp ∧
      resp.startTime = lastStartBound quals ∧
      resp.endTime = lastEndBound quals ∧
      (resp.startTime = none ↔ ∀ q ∈ quals, setsStartTime q = false) ∧
      (resp.endTime = none ↔ ∀ q ∈ quals, setsEndTime q = false) ∧
      ∀ now : time.Time, activitiesRequest { env with Now := now } d = .request resp := by
  have hs : (if quals.filter setsStartTime = [] then none else lastStartBound quals) =
      lastStartBound quals := by
    split_ifs with h
    · simp [lastStartBound, h]
    · rfl
  have he : (if quals.filter setsEndTime = [] then none else lastEndBound quals) =
      lastEndBound quals := by
    split_ifs with h
    · simp [lastEndBound, h]
    · rfl
  have hb : ∀ resp : ActivitiesListCall, resp.startTime = none → resp.endTime = none →
      timeQuals quals resp =
        .ok { resp with startTime := lastStartBound quals, endTime := lastEndBound quals } := by
    intro resp h1 h2
    rw [timeQuals_net quals hwf resp, h1, h2, hs, he]
  have hsome : ∀ (p : plugin.Qual → Bool) (f : plugin.Qual → Option String),
      (∀ q ∈ quals, f q ≠ none) →
      (((quals.filter p).getLast?.bind f) = none ↔ ∀ q ∈ quals, p q = false) := by
    intro p f hf
    constructor
    · intro h
      cases hl : (quals.filter p).getLast? with
      | none =>
        rw [List.getLast?_eq_none_iff, List.filter_eq_nil_iff] at hl
        intro q hq
        simpa using hl q hq
      | some q =>
        rw [hl] at h
        exact absurd h (hf q (List.mem_of_mem_filter (List.mem_of_getLast?_eq_some hl)))
    · intro h
      have : quals.filter p = [] := by
        rw [List.filter_eq_nil_iff]
        intro q hq
        simp [h q hq]
      simp [this]
  refine ⟨_, activitiesRequest_of_bounds env d app _ _ hsvc happ ?_, rfl, rfl, ?_, ?_, ?_⟩
  · intro resp h1 h2
    rw [hq]
    exact hb resp h1 h2
  · refine hsome setsStartTime startBoundOf ?_
    intro q hq
    obtain ⟨T, hT⟩ := hwf q hq
    simp [startBoundOf, hT]
  · refine hsome setsEndTime endBoundOf ?_
    intro q hq
    obtain ⟨T, hT⟩ := hwf q hq
    simp [endBoundOf, hT]
  · intro now
    refine activitiesRequest_of_bounds { env with Now := now } d app _ _ hsvc happ ?_
    intro resp h1 h2
    rw [hq]
    exact hb resp h1 h2

theorem C11_last_predicate_wins_witness :
    ∃ resp, activitiesRequest Sample.env Sample.queryThreeTimes = .request resp ∧
      resp.startTime = some "2022-01-01T00:00:01.000Z" ∧
      resp.endTime = some "2023-05-31T23:59:59.000Z" := by
  obtain ⟨resp, h, hs, he, -⟩ := C11_last_predicate_wins Sample.env Sample.queryThreeTimes
    "drive"
    [⟨">", "2022-12-31T23:59:59.000Z"⟩, ⟨"<", "2023-06-01T00:00:00.000Z"⟩,
      ⟨">", "2022-01-01T00:00:00.000Z"⟩]
    rfl rfl rfl
    (by
      intro q hq
      simp only [List.mem_cons, List.mem_singleton, List.not_mem_nil, or_false] at hq
      rcases hq with rfl | rfl | rfl
      · exact ⟨⟨1672531199, 0, time.UTC⟩, rfl⟩
      · exact ⟨⟨1685577600, 0, time.UTC⟩, rfl⟩
      · exact ⟨⟨1640995200, 0, time.UTC⟩, rfl⟩)
  exact ⟨resp, h, hs.trans (by decide), he.trans (by decide)⟩

/-- C12 fails as stated: the literal `2022-09-25T8:26:32.045Z`, with one digit
for the hour, parses under the layout, and its instant is rendered as
`2022-09-25T08:26:32.045Z`; that rendering, not the literal, is the start
bound of the request for `time >= 2022-09-25T8:26:32.045Z`. -/
theorem C12_counterexample :
    (∃ T, time.Parse "2022-09-25T8:26:32.045Z" = .ok T ∧
      T.Format = "2022-09-25T08:26:32.045Z" ∧ T.Format ≠ "2022-09-25T8:26:32.045Z") ∧
    ∃ resp, activitiesRequest Sample.env (Sample.queryTime ">=" "2022-09-25T8:26:32.045Z") =
        .request resp ∧
      resp.startTime = some "2022-09-25T08:26:32.045Z" ∧
      resp.startTime ≠ some "2022-09-25T8:26:32.045Z" := by
  refine ⟨⟨⟨1664094392, 45000000, time.UTC⟩, rfl, by decide, by decide⟩, ?_⟩
  refine ⟨_, activitiesRequest_of_bounds Sample.env
    (Sample.queryTime ">=" "2022-09-25T8:26:32.045Z") "drive"
    (some "2022-09-25T08:26:32.045Z") none rfl rfl ?_, rfl, by decide⟩
  intro resp h1 h2
  cases resp
  simp only [] at h1 h2
  subst h1 h2
  rfl

/-- Claim C12, amended. In `listAdminReportsActivities`, for every literal `s`
that parses under the layout `2006-01-02T15:04:05.000Z`, rendering the parsed
instant with the same layout gives `s` again exactly when `s` is written in the
shape of the layout (four digits of year, two digits for each of month, day,
hour, minute and second, a period and three digits of milliseconds); for such
a literal the bound on the request for the single predicate `time op s` is the
literal itself, character for character: the start bound for `>=`, the end
bound for `<=`, both for `=`. -/
theorem C12_round_trip_in_layout_shape {ι : Type} (env : Env ι) (d : plugin.QueryData)
    (app op s : String) (T : time.Time)
    (hsvc : env.AdminReportsService = .ok ())
    (happ : d.KeyColumnQuals "application_name" = some app)
    (hq : d.Quals "time" = some [⟨op, s⟩])
    (hT : time.Parse s = .ok T) :
    (T.Format = s ↔ inLayoutShape s = true) ∧
      (inLayoutShape s = true →
        ∃ resp, activitiesRequest env d = .request resp ∧
          (op = ">=" → resp.startTime = some s ∧ resp.endTime = none) ∧
          (op = "<=" → resp.startTime = none ∧ resp.endTime = some s) ∧
          (op = "=" → resp.startTime = some s ∧ resp.endTime = some s)) := by
  refine ⟨Format_Parse_iff_shape s T hT, ?_⟩
  intro hs
  have hfmt : T.Format = s := Format_Parse_of_shape s T hT hs
  refine ⟨_, activitiesRequest_of_bounds env d app
    (if setsStartTime ⟨op, s⟩ = true then startBoundOf ⟨op, s⟩ else none)
    (if setsEndTime ⟨op, s⟩ = true then endBoundOf ⟨op, s⟩ else none) hsvc happ ?_, ?_, ?_, ?_⟩
  · intro resp h1 h2
    rw [hq]
    simp only []
    rw [timeQuals_singleton ⟨op, s⟩ resp T hT, h1, h2]
  · intro h
    subst h
    simp [setsStartTime, setsEndTime, startBoundOf, hT, hfmt]
  · intro h
    subst h
    simp [setsStartTime, setsEndTime, endBoundOf, hT, hfmt]
  · intro h
    subst h
    simp [setsStartTime, setsEndTime, startBoundOf, endBoundOf, hT, hfmt]

theorem C12_round_trip_in_layout_shape_witness :
    ∃ resp, activitiesRequest Sample.env (Sample.queryTime "=" "2022-09-25T08:26:32.045Z") =
        .request resp ∧
      resp.startTime = some "2022-09-25T08:26:32.045Z" ∧
      resp.endTime = some "2022-09-25T08:26:32.045Z" := by
  obtain ⟨resp, h, -, -, heq⟩ := (C12_round_trip_in_layout_shape Sample.env
    (Sample.queryTime "=" "2022-09-25T08:26:32.045Z") "drive" "=" "2022-09-25T08:26:32.045Z"
    ⟨1664094392, 45000000, time.UTC⟩ rfl rfl rfl rfl).2 (by decide)
  exact ⟨resp, h, heq rfl⟩
